import Mathlib

/-!
# elf-load-analyser: attachment model and perf-table multiplexer

A shallow embedding of `pkg/bcc/bcc.go` (Monitor.DoAction) and of
`pkg/modules/advantace_module.go` (table registration, marks, the select
loop of Resolve, dataProcessing and buildSelectCase), followed by the
properties proved about them.

Conventions of the embedding.
* A Go `error` is `Option String`: `none` is nil.
* A Go pointer that may be nil is an `Option`.
* A Go map is an association list with unique keys; the order in which a
  `range` statement visits it is not fixed by the language, so every
  function that ranges over a map takes the visiting order as an argument.
* Calls to the outside world (Load, Attach, the decode handler, the
  enhancers) are functions supplied by the caller of the model. A hook that
  is handed a pointer also returns what it leaves behind that pointer.
* A run-time panic (a method call on a nil interface, an index out of
  range, a nil pointer dereference) is an outcome of its own.
* The observable behaviour of a run is the list of events it produces.
-/

set_option autoImplicit false

namespace Bcc

/-- The loadable unit returned by `bpf.NewModule(source, cflags)`. -/
structure Module where
  Source : String
  CFlags : List String
  deriving DecidableEq, Repr

/-- Interface `action`: `Load(m) (int, error)` and `Attach(m, fd) error`. -/
structure Action where
  Load : Module → Int × Option String
  Attach : Module → Int → Option String

/-- Values of `type Type uint8`. -/
def KprobesType : Nat := 0

/-- Second value of the iota block. -/
def KretprobesType : Nat := 1

/-- Method `Type.String`. -/
def typeString (t : Nat) : String :=
  if t = KprobesType then "kprobe"
  else if t = KretprobesType then "kretprobe"
  else "unknown"

/-- Struct `Event`. The embedded `action` is an interface value: `none` is
the nil interface, which is what `NewEvent` leaves in the field. -/
structure Event where
  action : Option Action
  Class : Nat
  Name : String
  FnName : String

/-- Constructor `NewEvent`: the `action` field is not set. -/
def NewEvent (cls : Nat) (name fnName : String) : Event :=
  { action := none, Class := cls, Name := name, FnName := fnName }

/-- Struct `Monitor`. The map `event2Action` sends every registered event to
the address of its own `action` field, so it is represented by the list of
its keys, in the order in which `range` visits them. The `Resolve` callback
plays no part in `DoAction` and is left out. -/
structure Monitor where
  isEnd : Bool
  event2Action : List Event
  Name : String
  Source : String
  CFlags : List String

/-- Method `IsEnd`. -/
def Monitor.IsEnd (m : Monitor) : Bool := m.isEnd

/-- Method `SetEnd`. -/
def Monitor.SetEnd (m : Monitor) : Monitor := { m with isEnd := true }

/-- Constructor `NewMonitor`. -/
def NewMonitor (name source : String) (cFlags : List String) : Monitor :=
  { isEnd := false, event2Action := [], Name := name, Source := source, CFlags := cFlags }

/-- Method `initialize` of Monitor: `bpf.NewModule(m.Source, m.CFlags)`. -/
def Monitor.newModule (m : Monitor) : Module :=
  { Source := m.Source, CFlags := m.CFlags }

/-- Method `AddEvent` for an event instance that is not yet registered. -/
def Monitor.AddEvent (m : Monitor) (event : Event) : Monitor :=
  { m with event2Action := m.event2Action ++ [event] }

/-- Log levels of package `log`. -/
inductive Level
  | debug | info | warn | error
  deriving DecidableEq, Repr

/-- What a call of a logging function does to the control flow. -/
inductive LogResult
  | returns
  | exits
  deriving DecidableEq, Repr

/-- Modelled from the spec: package `pkg/log` is not part of the sources.
Section 4.1 and section 7 make the failure of an essential monitor fatal
(the whole process terminates with a descriptive message), and the only
statement on that path is `log.Errorf`; the callers in `cmd/main.go` and
`pkg/env/env.go` likewise go on to use the failed value after `log.Errorf`.
So `Errorf` writes its entry and terminates the process; the other logging
functions (`Debugf`, `Infof`, `Warnf`) write their entry and return. -/
def logErrorf : LogResult := LogResult.exits

/-- Observable steps of one `DoAction` call. `panic` is the run-time panic
of a method call on the nil interface of the named event. -/
inductive Ev
  | log (lvl : Level) (monitor : String)
  | load (event : String) (fd : Int) (err : Option String)
  | attach (event : String) (fd : Int) (err : Option String)
  | panic (event : String)
  deriving DecidableEq, Repr

/-- The step is a call of Load or of Attach. -/
def Ev.isCall : Ev → Bool
  | Ev.load _ _ _ => true
  | Ev.attach _ _ _ => true
  | _ => false

/-- The step is a call of Load or of Attach that returned an error. -/
def Ev.isFailure : Ev → Bool
  | Ev.load _ _ err => err.isSome
  | Ev.attach _ _ err => err.isSome
  | _ => false

/-- How a call ends: with a value, with the process terminated by
`log.Errorf`, or with a run-time panic. -/
inductive Outcome (α : Type)
  | ret (a : α)
  | exit
  | panic
  deriving DecidableEq, Repr

/-- The `for event, action := range m.event2Action` loop of `DoAction`,
run on the events still to be visited, followed by the final
`return module, true`. -/
def doActionLoop (m : Monitor) (module : Module) :
    List Event → List Ev × Outcome (Module × Bool)
  | [] => ([], Outcome.ret (module, true))
  | event :: rest =>
    let dbg := Ev.log Level.debug m.Name
    match event.action with
    | none =>
      -- `action.Load(module)` on the nil interface
      ([dbg, Ev.panic event.Name], Outcome.panic)
    | some action =>
      let r := action.Load module
      let fd := r.1
      let steps : List Ev × Bool :=
        match r.2 with
        | some e => ([dbg, Ev.load event.Name fd (some e), Ev.log Level.warn m.Name], false)
        | none =>
          match action.Attach module fd with
          | some e =>
            ([dbg, Ev.load event.Name fd none, Ev.attach event.Name fd (some e),
              Ev.log Level.warn m.Name], false)
          | none => ([dbg, Ev.load event.Name fd none, Ev.attach event.Name fd none], true)
      if steps.2 then
        -- continue
        let next := doActionLoop m module rest
        (steps.1 ++ next.1, next.2)
      else if m.IsEnd then
        match logErrorf with
        | LogResult.exits => (steps.1 ++ [Ev.log Level.error m.Name], Outcome.exit)
        | LogResult.returns =>
          let next := doActionLoop m module rest
          (steps.1 ++ Ev.log Level.error m.Name :: next.1, next.2)
      else
        (steps.1 ++ [Ev.log Level.warn m.Name], Outcome.ret (module, false))

/-- Method `DoAction`: the steps taken and the way the call ends. -/
def Monitor.DoAction (m : Monitor) : List Ev × Outcome (Module × Bool) :=
  doActionLoop m m.newModule m.event2Action

/-- Load and then Attach succeed for the event on the given module; an event
without an action has neither. -/
def Event.succeeds (module : Module) (event : Event) : Bool :=
  match event.action with
  | none => false
  | some action =>
    match (action.Load module).2 with
    | some _ => false
    | none => (action.Attach module (action.Load module).1).isNone

/-- An action whose Load and Attach succeed. -/
def okAction : Action := { Load := fun _ => (3, none), Attach := fun _ _ => none }

/-- An action whose Load succeeds and whose Attach fails. -/
def failAttach : Action :=
  { Load := fun _ => (4, none), Attach := fun _ _ => some "attach failed" }

/-- A monitor with three events, the second of which fails to attach. -/
def demoMonitor (essential : Bool) : Monitor :=
  { isEnd := essential
    event2Action :=
      [{ action := some okAction, Class := KprobesType, Name := "a", FnName := "fa" },
       { action := some failAttach, Class := KprobesType, Name := "b", FnName := "fb" },
       { action := some okAction, Class := KretprobesType, Name := "c", FnName := "fc" }]
    Name := "m", Source := "src", CFlags := [] }

/-- A non-essential monitor whose one event was made by `NewEvent`. -/
def bareMonitor : Monitor :=
  (NewMonitor "m" "src" []).AddEvent (NewEvent KprobesType "a" "fa")

/-- The monitor `bareMonitor` with a second event whose Attach fails. -/
def bareThenFailing : Monitor :=
  bareMonitor.AddEvent
    { action := some failAttach, Class := KprobesType, Name := "b", FnName := "fb" }

/-- Scan of a trace: after the first failed call, no further call occurs. -/
def quietAfterFailure : List Ev → Bool
  | [] => true
  | x :: xs => if x.isFailure then xs.all (fun y => !y.isCall) else quietAfterFailure xs

end Bcc

namespace Modules

open Bcc (Level LogResult logErrorf)

/-- A `[]byte` payload. -/
abbrev Bytes := List Nat

/-- Go `len(s)` of a string: its length in bytes. -/
def goLen (s : String) : Nat := s.utf8ByteSize

/-- Go `unicode.IsSpace`. -/
def isSpace (c : Char) : Bool :=
  let n := c.toNat
  decide (n = 0x09 ∨ n = 0x0A ∨ n = 0x0B ∨ n = 0x0C ∨ n = 0x0D ∨ n = 0x20 ∨ n = 0x85 ∨ n = 0xA0
    ∨ n = 0x1680 ∨ (0x2000 ≤ n ∧ n ≤ 0x200A) ∨ n = 0x2028 ∨ n = 0x2029 ∨ n = 0x202F
    ∨ n = 0x205F ∨ n = 0x3000)

/-- Go `strings.TrimSpace`: drop the leading and the trailing white space. -/
def TrimSpace (s : String) : String :=
  String.mk ((s.toList.dropWhile isSpace).reverse.dropWhile isSpace).reverse

/-- Modelled from the spec: struct `data.AnalyseData` (package `pkg/data` is
not part of the sources). The core only requires a `name` field; the rest of
the record is never read by the multiplexer and is kept as one field. -/
structure AnalyseData where
  Name : String
  Body : String
  deriving DecidableEq, Repr

/-- Struct `TableCtx`, the value behind the pointer `*TableCtx` that the map
`table2Ctx` holds. `channel` is the identity of the channel made by
`make(chan []byte)`. `Monitor` holds the name returned by the owning
module. A nil record pointer returned by the handler is `none`. -/
structure TableCtx where
  Name : String
  Monitor : String
  loop : Bool
  channel : Nat
  handler : Bytes → Option AnalyseData × Option String
  mark : List String

/-- Method `IsMark`: membership in the set `mark`. -/
def TableCtx.IsMark (t : TableCtx) (mk : String) : Bool := decide (mk ∈ t.mark)

/-- Interface `Enhancer`. Both hooks are handed the pointer `*TableCtx`, so
besides their results they leave a context behind: `PreHandle` maps the
context it finds to the context it leaves, and `AfterHandle` returns its
`(record, err)` pair together with the context it leaves. -/
structure Enhancer where
  PreHandle : TableCtx → TableCtx
  AfterHandle : TableCtx → Option AnalyseData → Option String →
    (Option AnalyseData × Option String) × TableCtx

/-- The context after a hook has run on `ctx` and left `left`. Enhancers are
registered from outside through `RegisteredEnhancer`; what such a hook can
write through the pointer are the exported fields `Name` and `Monitor`. The
unexported `loop`, `channel`, `handler` and `mark` stay as they were. -/
def TableCtx.hookWrite (ctx left : TableCtx) : TableCtx :=
  { ctx with Name := left.Name, Monitor := left.Monitor }

/-- Go map lookup `m[k]` with the comma-ok result. -/
def mapGet {β : Type} (k : String) : List (String × β) → Option β
  | [] => none
  | (k', v) :: rest => if k' = k then some v else mapGet k rest

/-- Go map assignment `m[k] = v`. -/
def mapSet {β : Type} (k : String) (v : β) : List (String × β) → List (String × β)
  | [] => [(k, v)]
  | (k', v') :: rest => if k' = k then (k, v) :: rest else (k', v') :: mapSet k v rest

/-- Struct `PerfResolveMonitorModule`. `Monitor` is the value returned by the
method `Monitor()` of the embedded MonitorModule. `table2Ctx` is a Go map:
an association list with unique keys. The stop handler is a callback on the
module itself; it is identified by a label and its call is recorded. -/
structure PerfResolveMonitorModule where
  Monitor : String
  tableIds : List String
  table2Ctx : List (String × TableCtx)
  stopHandler : Option String

/-- Constructor `NewPerfResolveMonitorModule`. -/
def NewPerfResolveMonitorModule (m : String) : PerfResolveMonitorModule :=
  { Monitor := m, tableIds := [], table2Ctx := [], stopHandler := none }

/-- Method `RegisterTable`: the module afterwards and the returned channel
(`none` is nil). The fresh channel is numbered by the count of channels the
module has made so far, which is the length of `tableIds`. -/
def PerfResolveMonitorModule.RegisterTable (p : PerfResolveMonitorModule) (name : String)
    (loop : Bool) (handler : Option (Bytes → Option AnalyseData × Option String)) :
    PerfResolveMonitorModule × Option Nat :=
  let name := TrimSpace name
  match handler with
  | none => (p, none)
  | some h =>
    if goLen name = 0 then (p, none)
    else
      let tableChannel := p.tableIds.length
      let p1 : PerfResolveMonitorModule :=
        { p with
          tableIds := p.tableIds ++ [name]
          table2Ctx := mapSet name
            { Name := p.Monitor ++ "@" ++ name, loop := loop, channel := tableChannel,
              handler := h, mark := [], Monitor := p.Monitor } p.table2Ctx }
      if !loop then (p1, none) else (p1, some tableChannel)

/-- Method `RegisterOnceTable`. -/
def PerfResolveMonitorModule.RegisterOnceTable (p : PerfResolveMonitorModule) (name : String)
    (handler : Option (Bytes → Option AnalyseData × Option String)) : PerfResolveMonitorModule :=
  (p.RegisterTable name false handler).1

/-- Method `RegisterStopHandle`. -/
def PerfResolveMonitorModule.RegisterStopHandle (p : PerfResolveMonitorModule)
    (handler : Option String) : PerfResolveMonitorModule :=
  { p with stopHandler := handler }

/-- Statement `ctx.mark[mk] = struct{}{}` on the set `mark`. -/
def markAdd (mk : String) (mark : List String) : List String :=
  if mk ∈ mark then mark else mk :: mark

/-- Method `SetMark`. The context is reached through the pointer stored in
`table2Ctx`, so the write lands in the entry of the map. -/
def PerfResolveMonitorModule.SetMark (p : PerfResolveMonitorModule) (name mk : String) :
    PerfResolveMonitorModule :=
  match mapGet name p.table2Ctx with
  | none => p
  | some ctx => { p with table2Ctx := mapSet name { ctx with mark := markAdd mk ctx.mark } p.table2Ctx }

/-- Observable steps of a Resolve run. -/
inductive Ev
  | log (lvl : Level) (table : String)
  | preHandle (enhancer table : String)
  | decode (table : String) (d : Bytes)
  | afterHandle (enhancer table : String)
  | send (a : AnalyseData)
  | selected (chosen : Nat) (ok : Bool)
  | readySent
  | process (table : String) (d : Bytes)
  | stopHandler (label : String)
  | panic (what : String)
  | start (i : Nat)
  | stop (i : Nat)
  | closeOk
  deriving DecidableEq, Repr

/-- First loop of `dataProcessing`: PreHandle of every enhancer, each on the
context as the hooks before it left it. The value is the trace and the
context after the loop. -/
def preLoop : TableCtx → List (String × Enhancer) → List Ev × TableCtx
  | ctx, [] => ([], ctx)
  | ctx, (name, handler) :: rest =>
    let r := preLoop (ctx.hookWrite (handler.PreHandle ctx)) rest
    (Ev.log Level.debug ctx.Name :: Ev.preHandle name ctx.Name :: r.1, r.2)

/-- Second loop of `dataProcessing`: the variables `analyseData, err` are
overwritten by the result of every AfterHandle in turn. The value is the
trace, the last pair and the context after the loop. -/
def afterLoop : TableCtx → List (String × Enhancer) → Option AnalyseData × Option String →
    List Ev × (Option AnalyseData × Option String) × TableCtx
  | ctx, [], cur => ([], cur, ctx)
  | ctx, (name, handler) :: rest, cur =>
    let out := handler.AfterHandle ctx cur.1 cur.2
    let r := afterLoop (ctx.hookWrite out.2) rest out.1
    (Ev.log Level.debug ctx.Name :: Ev.afterHandle name ctx.Name :: r.1, r.2)

/-- The closing `if err != nil ... else ...` of `dataProcessing`, on the
context as the hooks left it. Reading `analyseData.Name` through a nil
pointer is a run-time panic. -/
def forwardOrDrop (ctx : TableCtx) : Option AnalyseData × Option String → List Ev
  | (_, some _) => [Ev.log Level.warn ctx.Name]
  | (none, none) => [Ev.panic "nil pointer dereference"]
  | (some a, none) =>
    if goLen a.Name = 0 then [Ev.send { a with Name := ctx.Name }] else [Ev.send a]

/-- Function `dataProcessing`. The registry `registeredEnhancer` is a map that
is ranged over twice; `pre` and `post` are the two visiting orders. The
value is the trace and the context the call leaves behind the pointer. -/
def dataProcessing (pre post : List (String × Enhancer)) (d : Bytes) (ctx : TableCtx) :
    List Ev × TableCtx :=
  let before := preLoop ctx pre
  let decoded := before.2.handler d
  let after := afterLoop before.2 post decoded
  (before.1
    ++ [Ev.log Level.info before.2.Name, Ev.decode before.2.Name d,
        Ev.log Level.debug before.2.Name]
    ++ after.1 ++ forwardOrDrop after.2.2 after.2.1, after.2.2)

/-- The pair `(analyseData, err)` on which `dataProcessing` decides. -/
def decisionPair (pre post : List (String × Enhancer)) (d : Bytes) (ctx : TableCtx) :
    Option AnalyseData × Option String :=
  (afterLoop (preLoop ctx pre).2 post ((preLoop ctx pre).2.handler d)).2.1

/-- The context on which `dataProcessing` reads `ctx.Name` for the record. -/
def decisionCtx (pre post : List (String × Enhancer)) (d : Bytes) (ctx : TableCtx) : TableCtx :=
  (afterLoop (preLoop ctx pre).2 post ((preLoop ctx pre).2.handler d)).2.2

/-- Records sent on the output channel in a trace. -/
def sends : List Ev → List AnalyseData
  | [] => []
  | Ev.send a :: rest => a :: sends rest
  | _ :: rest => sends rest

/-- The trace ends in a run-time panic. -/
def panicked (t : List Ev) : Bool := t.any fun e => match e with
  | Ev.panic _ => true
  | _ => false

/-- Channels a select case of Resolve can refer to: the delivery channel of
a table, the `ready` channel and the `stop` channel. -/
inductive Channel
  | table (id : Nat)
  | ready
  | stop
  deriving DecidableEq, Repr

/-- Type `reflect.SelectDir`; `zero` is the zero value, which is no direction. -/
inductive SelectDir
  | zero
  | SelectSend
  | SelectRecv
  | SelectDefault
  deriving DecidableEq, Repr

/-- Struct `reflect.SelectCase`; `Chan = none` is the zero `reflect.Value`,
which is what `reflect.ValueOf(nil)` returns. The value to send is always
the empty struct and is left out. -/
structure SelectCase where
  Dir : SelectDir
  Chan : Option Channel
  deriving DecidableEq, Repr

/-- The loop `for t, c := range table2Ctx` of `buildSelectCase`, from index
`i`. At the one call site `cnt` is at least `chCnt + 1`, so every index
written lies inside both slices. -/
def fillCases : List (String × TableCtx) → Nat → List SelectCase × List String →
    List SelectCase × List String
  | [], _, acc => acc
  | (t, c) :: rest, i, acc =>
    fillCases rest (i + 1)
      (acc.1.set i { Dir := SelectDir.SelectRecv, Chan := some (Channel.table c.channel) },
       acc.2.set i t)

/-- Function `buildSelectCase`; `table2Ctx` is the map in visiting order. -/
def buildSelectCase (cnt : Nat) (table2Ctx : List (String × TableCtx)) :
    List SelectCase × List String :=
  let chCnt := table2Ctx.length
  let cases := List.replicate cnt { Dir := SelectDir.zero, Chan := none : SelectCase }
  let tableNames := List.replicate chCnt ""
  let filled := fillCases table2Ctx 0 (cases, tableNames)
  let cases := filled.1.set chCnt { Dir := SelectDir.SelectSend, Chan := some Channel.ready }
  let idx := chCnt + 1
  let cases :=
    if idx < cnt then cases.set idx { Dir := SelectDir.SelectRecv, Chan := some Channel.stop }
    else cases
  (cases, filled.2)

/-- What the outside world offers to the pending select: a payload sent on
the delivery channel of a table, that channel closed, a receiver taking the
readiness signal, a value sent on the stop channel, the stop channel closed. -/
inductive Offer
  | deliver (ch : Nat) (d : Bytes)
  | closed (ch : Nat)
  | readyTaken
  | cancel
  | stopClosed
  deriving DecidableEq, Repr

/-- Channel an offer is made on. -/
def Offer.chan : Offer → Channel
  | Offer.deliver ch _ => Channel.table ch
  | Offer.closed ch => Channel.table ch
  | Offer.readyTaken => Channel.ready
  | Offer.cancel => Channel.stop
  | Offer.stopClosed => Channel.stop

/-- Direction a select case needs to take the offer. -/
def Offer.dir : Offer → SelectDir
  | Offer.readyTaken => SelectDir.SelectSend
  | _ => SelectDir.SelectRecv

/-- Received value `value.Bytes()` when the offer is taken. -/
def Offer.value : Offer → Bytes
  | Offer.deliver _ d => d
  | _ => []

/-- Third result of `reflect.Select`: true exactly when a value sent on the
channel was received; false for a closed channel and for a send case. -/
def Offer.ok : Offer → Bool
  | Offer.deliver _ _ => true
  | Offer.cancel => true
  | _ => false

/-- Index `reflect.Select` returns when the offer is the communication that
proceeds: a case whose channel is the zero Value is ignored. -/
def selectIndex (o : Offer) : List SelectCase → Option Nat
  | [] => none
  | c :: rest =>
    if c.Dir = o.dir ∧ c.Chan = some o.chan then some 0
    else (selectIndex o rest).map (· + 1)

/-- Statement `cases[chosen].Chan = reflect.ValueOf(nil)`. -/
def retireCase : Nat → List SelectCase → List SelectCase
  | _, [] => []
  | 0, c :: rest => { c with Chan := none } :: rest
  | n + 1, c :: rest => c :: retireCase n rest

/-- Variables of the select loop, and the contexts behind the pointers of
`p.table2Ctx` as the hooks have left them so far. -/
structure LoopState where
  cases : List SelectCase
  remaining : Nat
  table2Ctx : List (String × TableCtx)

/-- The two statements `cases[chosen].Chan = reflect.ValueOf(nil); remaining--`. -/
def LoopState.retire (s : LoopState) (chosen : Nat) : LoopState :=
  { s with cases := retireCase chosen s.cases, remaining := s.remaining - 1 }

/-- How one pass through the loop body ends: back at the loop head, with
`return`, or with a run-time panic. -/
inductive Ctl
  | next
  | ret
  | panic
  deriving DecidableEq, Repr

/-- One answer of the runtime to the pending select: the offer that
proceeds, and the two orders in which `dataProcessing` then visits the
enhancer registry. -/
structure Pick where
  offer : Offer
  pre : List (String × Enhancer)
  post : List (String × Enhancer)

/-- One pass through the body of `for remaining > 0`, entered with
`remaining > 0`, when the runtime answers the select with `pick`. An offer
that no armed case can take leaves the select waiting (the other side stays
blocked on its channel). The record that `dataProcessing` sends on the
output channel is taken by the consumer of that channel. The context is
reached through the pointer `p.table2Ctx[tName]`, so what the hooks leave in
it is there for the next delivery. -/
def loopBody (p : PerfResolveMonitorModule) (chCnt : Nat) (tableNames : List String)
    (s : LoopState) (pick : Pick) : List Ev × LoopState × Ctl :=
  match selectIndex pick.offer s.cases with
  | none => ([], s, Ctl.next)
  | some chosen =>
    let sel : List Ev :=
      if pick.offer.dir = SelectDir.SelectSend then
        [Ev.selected chosen pick.offer.ok, Ev.readySent]
      else [Ev.selected chosen pick.offer.ok]
    if !pick.offer.ok then (sel, s.retire chosen, Ctl.next)
    else
      match tableNames[chosen]? with
      | none => (sel ++ [Ev.panic "index out of range"], s, Ctl.panic)
      | some tName =>
        let ctx := mapGet tName s.table2Ctx
        if chosen = chCnt + 1 then
          match p.stopHandler with
          | none => (sel ++ [Ev.panic "nil func call"], s, Ctl.panic)
          | some h => (sel ++ [Ev.stopHandler h], s, Ctl.ret)
        else if chosen ≠ chCnt then
          match ctx with
          | none => (sel ++ [Ev.process tName pick.offer.value,
              Ev.panic "nil pointer dereference"], s, Ctl.panic)
          | some ctx =>
            let r := dataProcessing pick.pre pick.post pick.offer.value ctx
            let s1 : LoopState := { s with table2Ctx := mapSet tName r.2 s.table2Ctx }
            if panicked r.1 then
              (sel ++ Ev.process tName pick.offer.value :: r.1, s1, Ctl.panic)
            else if r.2.loop then
              (sel ++ Ev.process tName pick.offer.value :: r.1, s1, Ctl.next)
            else (sel ++ Ev.process tName pick.offer.value :: r.1, s1.retire chosen, Ctl.next)
        else (sel, s.retire chosen, Ctl.next)

/-- How far the worker goroutine has come: still in the loop (at the
select), left the loop because `remaining` reached zero, returned after the
stop handler, or stopped by a run-time panic. -/
inductive LoopEnd
  | waiting
  | exited
  | returned
  | panicked
  deriving DecidableEq, Repr

/-- The loop `for remaining > 0 { ... }` run against the answers of the
runtime, in order. With no answer left the select is still pending. -/
def runLoop (p : PerfResolveMonitorModule) (chCnt : Nat) (tableNames : List String) :
    LoopState → List Pick → List Ev × LoopState × LoopEnd
  | s, [] => if s.remaining > 0 then ([], s, LoopEnd.waiting) else ([], s, LoopEnd.exited)
  | s, pick :: rest =>
    if s.remaining > 0 then
      let r := loopBody p chCnt tableNames s pick
      match r.2.2 with
      | Ctl.next =>
        let q := runLoop p chCnt tableNames r.2.1 rest
        (r.1 ++ q.1, q.2)
      | Ctl.ret => (r.1, r.2.1, LoopEnd.returned)
      | Ctl.panic => (r.1, r.2.1, LoopEnd.panicked)
    else ([], s, LoopEnd.exited)

/-- Number of select cases: one per table, the readiness case, and the
cancellation case when a stop handler is registered. -/
def caseCount (p : PerfResolveMonitorModule) : Nat :=
  if p.stopHandler.isSome then p.table2Ctx.length + 1 + 1 else p.table2Ctx.length + 1

/-- Loop variables after `buildSelectCase`, with `iter` the order in which
`range` visits `p.table2Ctx`. -/
def initialLoop (p : PerfResolveMonitorModule) (iter : List (String × TableCtx)) : LoopState :=
  { cases := (buildSelectCase (caseCount p) iter).1, remaining := caseCount p,
    table2Ctx := p.table2Ctx }

/-- Body of the goroutine started by Resolve, up to the deferred `close(ok)`. -/
def resolveWorker (p : PerfResolveMonitorModule) (iter : List (String × TableCtx))
    (picks : List Pick) : List Ev × LoopState × LoopEnd :=
  runLoop p p.table2Ctx.length (buildSelectCase (caseCount p) iter).2 (initialLoop p iter) picks

/-- Function `initPerMaps`: one perf map per entry of `tableIds`. The result
of `bpf.InitPerfMap` for a table is supplied by `initPerfMap`; an error is
reported with `log.Errorf`. The value is the number of perf maps, or `none`
when the process was terminated. -/
def initPerMaps (initPerfMap : String → Option String) :
    List String → List Ev × Option Nat
  | [] => ([], some 0)
  | table :: rest =>
    match initPerfMap table with
    | some _ =>
      match logErrorf with
      | LogResult.exits => ([Ev.log Level.error table], none)
      | LogResult.returns =>
        let r := initPerMaps initPerfMap rest
        (Ev.log Level.error table :: r.1, r.2.map (· + 1))
    | none =>
      let r := initPerMaps initPerfMap rest
      (r.1, r.2.map (· + 1))

/-- Which of the two routines of Resolve takes the next step: the driving
routine, or the worker goroutine with the answer its select receives. -/
inductive Tick
  | main
  | worker (pick : Pick)

/-- State of a Resolve call after the goroutine has been started: how many
perf maps have been started and stopped, the loop variables of the worker,
how far the worker has come, and whether Resolve has returned. -/
structure ResolveState where
  started : Nat
  stopped : Nat
  loop : LoopState
  worker : LoopEnd
  done : Bool

/-- One step of Resolve with `n` perf maps. The driving routine starts the
perf maps one after the other, blocks on `<-ok` until the worker has closed
it, then stops the perf maps and returns. The worker makes one pass through
its loop; when it leaves the loop the deferred `close(ok)` runs. A panic in
the worker ends the whole process. -/
def resolveStep (p : PerfResolveMonitorModule) (tableNames : List String) (n : Nat)
    (s : ResolveState) : Tick → List Ev × ResolveState
  | Tick.main =>
    if s.worker = LoopEnd.panicked ∨ s.done then ([], s)
    else if s.started < n then ([Ev.start s.started], { s with started := s.started + 1 })
    else if s.worker = LoopEnd.waiting then ([], s)
    else if s.stopped < n then ([Ev.stop s.stopped], { s with stopped := s.stopped + 1 })
    else ([], { s with done := true })
  | Tick.worker pick =>
    if s.worker ≠ LoopEnd.waiting then ([], s)
    else
      let r := loopBody p p.table2Ctx.length tableNames s.loop pick
      match r.2.2 with
      | Ctl.next =>
        if r.2.1.remaining > 0 then (r.1, { s with loop := r.2.1 })
        else (r.1 ++ [Ev.closeOk], { s with loop := r.2.1, worker := LoopEnd.exited })
      | Ctl.ret => (r.1 ++ [Ev.closeOk], { s with loop := r.2.1, worker := LoopEnd.returned })
      | Ctl.panic => (r.1 ++ [Ev.closeOk], { s with loop := r.2.1, worker := LoopEnd.panicked })

/-- Resolve run along a schedule of steps. -/
def runTicks (p : PerfResolveMonitorModule) (tableNames : List String) (n : Nat) :
    ResolveState → List Tick → List Ev × ResolveState
  | s, [] => ([], s)
  | s, t :: rest =>
    let r := resolveStep p tableNames n s t
    let q := runTicks p tableNames n r.2 rest
    (r.1 ++ q.1, q.2)

/-- Method `Resolve`, with `iter` the order in which `range` visits
`p.table2Ctx` and `ticks` the interleaving of the two routines. The value is
the trace and, when the goroutine was started, the state reached. The list
of enhancer names that is logged once at debug level writes a log entry and
nothing else, and is left out. -/
def PerfResolveMonitorModule.Resolve (p : PerfResolveMonitorModule)
    (initPerfMap : String → Option String) (iter : List (String × TableCtx))
    (ticks : List Tick) : List Ev × Option ResolveState :=
  if p.tableIds.length = 0 then ([], none)
  else
    match initPerMaps initPerfMap p.tableIds with
    | (evs, none) => (evs, none)
    | (evs, some n) =>
      let r := runTicks p (buildSelectCase (caseCount p) iter).2 n
        { started := 0, stopped := 0, loop := initialLoop p iter,
          worker := LoopEnd.waiting, done := false } ticks
      (evs ++ r.1, some r.2)

/-- What holds of every module made by `NewPerfResolveMonitorModule` and
changed by the registration methods only: the keys of the map are distinct,
the tables have distinct channels, and every channel was made by this module. -/
def PerfResolveMonitorModule.WellFormed (p : PerfResolveMonitorModule) : Prop :=
  (p.table2Ctx.map Prod.fst).Nodup ∧
  (p.table2Ctx.map fun x => x.2.channel).Nodup ∧
  ∀ x ∈ p.table2Ctx, x.2.channel < p.tableIds.length

/-- Select case that `buildSelectCase` stores for a table. -/
def tableCase (c : TableCtx) : SelectCase :=
  { Dir := SelectDir.SelectRecv, Chan := some (Channel.table c.channel) }

/-- Select case that `buildSelectCase` stores for the readiness signal. -/
def readyCase : SelectCase := { Dir := SelectDir.SelectSend, Chan := some Channel.ready }

/-- Select case that `buildSelectCase` stores for the cancellation channel. -/
def stopCase : SelectCase := { Dir := SelectDir.SelectRecv, Chan := some Channel.stop }

/-- Zero value of `reflect.SelectCase`. -/
def zeroCase : SelectCase := { Dir := SelectDir.zero, Chan := none }

/-- Number of select cases that still have a channel. -/
def armedCases (cs : List SelectCase) : Nat :=
  cs.countP fun c => c.Chan.isSome

/-- Number of send cases that still have a channel. -/
def armedSends (cs : List SelectCase) : Nat :=
  cs.countP fun c => decide (c.Dir = SelectDir.SelectSend) && c.Chan.isSome

/-- Labels of the stop handlers called in a trace. -/
def stopHandlerCalls : List Ev → List String
  | [] => []
  | Ev.stopHandler h :: rest => h :: stopHandlerCalls rest
  | _ :: rest => stopHandlerCalls rest

/-- Payloads that the loop passed to `dataProcessing` for table `t`. -/
def payloadsOf (t : String) : List Ev → List Bytes
  | [] => []
  | Ev.process n d :: rest => if n = t then d :: payloadsOf t rest else payloadsOf t rest
  | _ :: rest => payloadsOf t rest

/-- Number of times the readiness signal was sent in a trace. -/
def readyCount : List Ev → Nat
  | [] => 0
  | Ev.readySent :: rest => readyCount rest + 1
  | _ :: rest => readyCount rest

/-- Number of `Start` calls on perf maps in a trace. -/
def startCount : List Ev → Nat
  | [] => 0
  | Ev.start _ :: rest => startCount rest + 1
  | _ :: rest => startCount rest

/-- The chain AfterHandle_en(ctx, ... AfterHandle_e1(ctx, start) ...), with
the enhancers listed from the last applied (en) down to the first (e1).
Every AfterHandle is handed the same pointer, so it finds the context as
the enhancers before it left it. The value is the pair and that context. -/
def composeFrom (ctx : TableCtx) (start : Option AnalyseData × Option String) :
    List Enhancer → (Option AnalyseData × Option String) × TableCtx
  | [] => (start, ctx)
  | e :: earlier =>
    ((e.AfterHandle (composeFrom ctx start earlier).2 (composeFrom ctx start earlier).1.1
        (composeFrom ctx start earlier).1.2).1,
      (composeFrom ctx start earlier).2.hookWrite
        (e.AfterHandle (composeFrom ctx start earlier).2 (composeFrom ctx start earlier).1.1
          (composeFrom ctx start earlier).1.2).2)

/-- The chain of the claim on enhancer chaining, started on the decode output. -/
def composedAfter (ctx : TableCtx) (d : Bytes) (lastFirst : List Enhancer) :
    (Option AnalyseData × Option String) × TableCtx :=
  composeFrom ctx (ctx.handler d) lastFirst

/-- A decoded record with an empty name. -/
def demoRecord : AnalyseData := { Name := "", Body := "x" }

/-- A decode handler that always succeeds. -/
def demoHandler : Bytes → Option AnalyseData × Option String := fun _ => (some demoRecord, none)

/-- A decode handler that returns a record together with an error. -/
def failingHandler : Bytes → Option AnalyseData × Option String :=
  fun _ => (some demoRecord, some "decode failed")

/-- An enhancer whose AfterHandle replaces the error by nil. -/
def clearError : Enhancer :=
  { PreHandle := fun c => c, AfterHandle := fun c a _ => ((a, none), c) }

/-- An enhancer whose AfterHandle passes record and error on. -/
def passOn : Enhancer :=
  { PreHandle := fun c => c, AfterHandle := fun c a err => ((a, err), c) }

/-- Module of monitor M with the continuous table T. -/
def demoModule : PerfResolveMonitorModule :=
  ((NewPerfResolveMonitorModule "M").RegisterTable "T" true (some demoHandler)).1

/-- Module of monitor M with the table T whose decode handler fails. -/
def failingModule : PerfResolveMonitorModule :=
  ((NewPerfResolveMonitorModule "M").RegisterTable "T" true (some failingHandler)).1

/-- Context of table T of `failingModule`. -/
def failingCtx : TableCtx :=
  { Name := "M@T", Monitor := "M", loop := true, channel := 0, handler := failingHandler,
    mark := [] }

/-- Module of monitor M with the continuous table T and a stop handler. -/
def stopModule : PerfResolveMonitorModule := demoModule.RegisterStopHandle (some "onStop")

/-- Module of monitor M with the one-shot table T and the continuous table U. -/
def onceModule : PerfResolveMonitorModule :=
  (((NewPerfResolveMonitorModule "M").RegisterOnceTable "T" (some demoHandler)).RegisterTable
    "U" true (some demoHandler)).1

/-- Answer of the runtime: payload `[n]` delivered on channel 0, with no
enhancer registered. -/
def delivery (n : Nat) : Pick := { offer := Offer.deliver 0 [n], pre := [], post := [] }

/-- Answer of the runtime: a value received from the stop channel. -/
def cancelPick : Pick := { offer := Offer.cancel, pre := [], post := [] }

/-- Answer of the runtime: the readiness signal was taken. -/
def readyPick : Pick := { offer := Offer.readyTaken, pre := [], post := [] }

end Modules

/-! ## Properties of `Monitor.DoAction` -/

namespace Bcc

theorem doActionLoop_true_iff (m : Monitor) (module : Module) (h : m.isEnd = false)
    (es : List Event) :
    (doActionLoop m module es).2 = Outcome.ret (module, true)
      ↔ ∀ e ∈ es, e.succeeds module = true := by
  induction es with
  | nil => simp [doActionLoop]
  | cons e rest ih =>
    cases hact : e.action with
    | none => simp [doActionLoop, hact, Event.succeeds]
    | some action =>
      cases hl : (action.Load module).2 with
      | some err => simp [doActionLoop, hact, hl, Monitor.IsEnd, h, Event.succeeds]
      | none =>
        cases ha : action.Attach module (action.Load module).1 with
        | some err => simp [doActionLoop, hact, hl, ha, Monitor.IsEnd, h, Event.succeeds]
        | none => simp [doActionLoop, hact, hl, ha, Event.succeeds, ih]

theorem doActionLoop_not_exit (m : Monitor) (module : Module) (h : m.isEnd = false)
    (es : List Event) : (doActionLoop m module es).2 ≠ Outcome.exit := by
  induction es with
  | nil => simp [doActionLoop]
  | cons e rest ih =>
    cases hact : e.action with
    | none => simp [doActionLoop, hact]
    | some action =>
      cases hl : (action.Load module).2 with
      | some err => simp [doActionLoop, hact, hl, Monitor.IsEnd, h]
      | none =>
        cases ha : action.Attach module (action.Load module).1 with
        | some err => simp [doActionLoop, hact, hl, ha, Monitor.IsEnd, h]
        | none => simpa [doActionLoop, hact, hl, ha] using ih

theorem doActionLoop_outcome (m : Monitor) (module : Module) (h : m.isEnd = false)
    (es : List Event) (hset : ∀ e ∈ es, e.action.isSome = true) :
    ∃ active, (doActionLoop m module es).2 = Outcome.ret (module, active) ∧
      (active = true ↔ ∀ e ∈ es, e.succeeds module = true) := by
  induction es with
  | nil => exact ⟨true, rfl, by simp⟩
  | cons e rest ih =>
    obtain ⟨active, hout, hiff⟩ := ih (fun x hx => hset x (by simp [hx]))
    cases hact : e.action with
    | none =>
      have := hset e (by simp)
      simp [hact] at this
    | some action =>
      cases hl : (action.Load module).2 with
      | some err =>
        refine ⟨false, ?_, ?_⟩
        · simp [doActionLoop, hact, hl, Monitor.IsEnd, h]
        · simp [Event.succeeds, hact, hl]
      | none =>
        cases ha : action.Attach module (action.Load module).1 with
        | some err =>
          refine ⟨false, ?_, ?_⟩
          · simp [doActionLoop, hact, hl, ha, Monitor.IsEnd, h]
          · simp [Event.succeeds, hact, hl, ha]
        | none =>
          refine ⟨active, ?_, ?_⟩
          · simp [doActionLoop, hact, hl, ha, hout]
          · simp [Event.succeeds, hact, hl, ha, hiff]

theorem quietAfterFailure_sound (t : List Ev) (h : quietAfterFailure t = true)
    (t1 : List Ev) (c : Ev) (t2 : List Ev) (ht : t = t1 ++ c :: t2)
    (hc : c.isFailure = true) : ∀ x ∈ t2, x.isCall = false := by
  induction t generalizing t1 with
  | nil => simp at ht
  | cons y ys ih =>
    cases t1 with
    | nil =>
      simp only [List.nil_append, List.cons.injEq] at ht
      obtain ⟨rfl, rfl⟩ := ht
      simpa [quietAfterFailure, hc] using h
    | cons z zs =>
      simp only [List.cons_append, List.cons.injEq] at ht
      obtain ⟨rfl, rfl⟩ := ht
      by_cases hy : y.isFailure = true
      · simp only [quietAfterFailure, hy, if_true, List.all_eq_true] at h
        intro x hx
        have := h x (by simp [hx])
        simpa using this
      · simp only [quietAfterFailure, hy] at h
        exact ih h zs rfl

theorem failures_le_one (t : List Ev) (h : quietAfterFailure t = true) :
    (t.filter Ev.isFailure).length ≤ 1 := by
  induction t with
  | nil => simp
  | cons y ys ih =>
    by_cases hy : y.isFailure = true
    · simp only [quietAfterFailure, hy, if_true, List.all_eq_true] at h
      have hnone : ys.filter Ev.isFailure = [] := by
        rw [List.filter_eq_nil_iff]
        intro x hx
        have hcall := h x hx
        cases x <;> simp_all [Ev.isCall, Ev.isFailure]
      simp [List.filter_cons, hy, hnone]
    · simp only [quietAfterFailure, hy] at h
      simpa [List.filter_cons, hy] using ih h

theorem doActionLoop_quiet (m : Monitor) (module : Module) (es : List Event) :
    quietAfterFailure (doActionLoop m module es).1 = true := by
  induction es with
  | nil => rfl
  | cons e rest ih =>
    cases hact : e.action with
    | none => simp [doActionLoop, hact, quietAfterFailure, Ev.isFailure]
    | some action =>
      cases hl : (action.Load module).2 with
      | some err =>
        cases hend : m.isEnd <;>
          simp [doActionLoop, hact, hl, Monitor.IsEnd, hend, logErrorf, quietAfterFailure,
            Ev.isFailure, Ev.isCall]
      | none =>
        cases ha : action.Attach module (action.Load module).1 with
        | some err =>
          cases hend : m.isEnd <;>
            simp [doActionLoop, hact, hl, ha, Monitor.IsEnd, hend, logErrorf, quietAfterFailure,
              Ev.isFailure, Ev.isCall]
        | none =>
          simpa [doActionLoop, hact, hl, ha, quietAfterFailure, Ev.isFailure] using ih

/-- C1 (as amended): for a non-essential monitor (isEnd = false) DoAction
returns active = true exactly when every registered event has an action and
its Load and then Attach succeed, and it never reaches the terminating
`log.Errorf`; when every registered event has its action set, DoAction
returns the compiled module together with a flag `active` (false as soon as
a Load or an Attach fails), and `active` is true exactly when Load and then
Attach succeed for every registered event. -/
theorem doAction_nonEssential_active_iff (m : Monitor) (h : m.isEnd = false) :
    (m.DoAction.2 = Outcome.ret (m.newModule, true)
      ↔ ∀ e ∈ m.event2Action, e.succeeds m.newModule = true) ∧
    m.DoAction.2 ≠ Outcome.exit ∧
    ((∀ e ∈ m.event2Action, e.action.isSome = true) →
      ∃ active, m.DoAction.2 = Outcome.ret (m.newModule, active) ∧
        (active = true ↔ ∀ e ∈ m.event2Action, e.succeeds m.newModule = true)) :=
  ⟨doActionLoop_true_iff m m.newModule h m.event2Action,
    doActionLoop_not_exit m m.newModule h m.event2Action,
    doActionLoop_outcome m m.newModule h m.event2Action⟩

/-- C1, witness: a non-essential monitor whose events all have an action and
whose second event fails to attach returns its module with active = false;
with no events it returns active = true. -/
theorem doAction_nonEssential_active_iff_witness :
    (demoMonitor false).isEnd = false ∧
    (∀ e ∈ (demoMonitor false).event2Action, e.action.isSome = true) ∧
    (∃ active, (demoMonitor false).DoAction.2
        = Outcome.ret ((demoMonitor false).newModule, active) ∧
      (active = true ↔
        ∀ e ∈ (demoMonitor false).event2Action, e.succeeds (demoMonitor false).newModule = true)) ∧
    (demoMonitor false).DoAction.2 = Outcome.ret ({ Source := "src", CFlags := [] }, false) ∧
    ({ demoMonitor false with event2Action := [] } : Monitor).DoAction.2
      = Outcome.ret ({ Source := "src", CFlags := [] }, true) :=
  ⟨rfl, by simp [demoMonitor],
    (doAction_nonEssential_active_iff (demoMonitor false) rfl).2.2 (by simp [demoMonitor]),
    by decide, by decide⟩

/-- C1, counterexample to the claim as stated: a non-essential monitor whose
one event was made by `NewEvent`, which leaves the action nil. DoAction
panics at `action.Load` and returns nothing. With a second event whose
Attach fails, visited after the first, DoAction still panics instead of
returning the module with active = false. -/
theorem doAction_panics_on_nil_action :
    bareMonitor.isEnd = false ∧
    bareMonitor.DoAction = ([Ev.log Level.debug "m", Ev.panic "a"], Outcome.panic) ∧
    bareThenFailing.isEnd = false ∧
    (∃ e ∈ bareThenFailing.event2Action, e.action = some failAttach) ∧
    (failAttach.Attach bareThenFailing.newModule 4).isSome = true ∧
    bareThenFailing.DoAction.2 = Outcome.panic ∧
    bareThenFailing.DoAction.2 ≠ Outcome.ret (bareThenFailing.newModule, false) := by
  refine ⟨rfl, by decide, rfl,
    ⟨{ action := some failAttach, Class := KprobesType, Name := "b", FnName := "fb" },
      by simp [bareThenFailing, Monitor.AddEvent], rfl⟩, rfl, by decide, by decide⟩

/-- C2: for every monitor, essential or not, and every order in which its
events are visited: whenever a call of Load or Attach in the trace of
DoAction returned an error, no call of Load or Attach occurs later in the
trace; so the trace holds at most one failed call. -/
theorem doAction_stops_at_first_failure (m : Monitor) :
    (∀ (t1 : List Ev) (c : Ev) (t2 : List Ev), m.DoAction.1 = t1 ++ c :: t2 →
      c.isFailure = true → ∀ x ∈ t2, x.isCall = false) ∧
    (m.DoAction.1.filter Ev.isFailure).length ≤ 1 :=
  ⟨fun t1 c t2 ht hc =>
      quietAfterFailure_sound _ (doActionLoop_quiet m m.newModule m.event2Action) t1 c t2 ht hc,
    failures_le_one _ (doActionLoop_quiet m m.newModule m.event2Action)⟩

/-- C2, witness: an essential monitor with three events, the second of which
fails to attach. After the failed Attach the trace holds log entries only:
the third event is neither loaded nor attached, and the process terminates. -/
theorem doAction_stops_at_first_failure_witness :
    (demoMonitor true).DoAction.1
      = [Ev.log Level.debug "m", Ev.load "a" 3 none, Ev.attach "a" 3 none,
          Ev.log Level.debug "m", Ev.load "b" 4 none]
        ++ Ev.attach "b" 4 (some "attach failed")
          :: [Ev.log Level.warn "m", Ev.log Level.error "m"] ∧
    (Ev.attach "b" 4 (some "attach failed")).isFailure = true ∧
    (∀ x ∈ [Ev.log Level.warn "m", Ev.log Level.error "m"], x.isCall = false) ∧
    (demoMonitor true).DoAction.2 = Outcome.exit ∧
    ((demoMonitor false).DoAction.1.filter Ev.isFailure).length ≤ 1 :=
  ⟨by decide, by decide,
    (doAction_stops_at_first_failure (demoMonitor true)).1
      [Ev.log Level.debug "m", Ev.load "a" 3 none, Ev.attach "a" 3 none,
        Ev.log Level.debug "m", Ev.load "b" 4 none]
      (Ev.attach "b" 4 (some "attach failed"))
      [Ev.log Level.warn "m", Ev.log Level.error "m"] (by decide) (by decide),
    by decide, (doAction_stops_at_first_failure (demoMonitor false)).2⟩

end Bcc

/-! ## Properties of `dataProcessing` -/

namespace Modules

open Bcc (Level LogResult logErrorf)

theorem goLen_eq_zero_iff (s : String) : goLen s = 0 ↔ s = "" := by
  constructor
  · intro h
    cases s with
    | mk cs =>
      cases cs with
      | nil => rfl
      | cons c rest =>
        have hpos := c.utf8Size_pos
        simp only [goLen, String.utf8ByteSize, String.utf8ByteSize.go] at h
        omega
  · rintro rfl
    rfl

theorem hookWrite_sameTable (ctx c left : TableCtx)
    (hc : ∃ n m, c = { ctx with Name := n, Monitor := m }) :
    ∃ n m, c.hookWrite left = { ctx with Name := n, Monitor := m } := by
  obtain ⟨n, m, rfl⟩ := hc
  exact ⟨left.Name, left.Monitor, rfl⟩

theorem preLoop_sameTable (ctx : TableCtx) (pre : List (String × Enhancer)) (c : TableCtx)
    (hc : ∃ n m, c = { ctx with Name := n, Monitor := m }) :
    ∃ n m, (preLoop c pre).2 = { ctx with Name := n, Monitor := m } := by
  induction pre generalizing c with
  | nil => exact hc
  | cons x rest ih =>
    obtain ⟨name, h⟩ := x
    exact ih _ (hookWrite_sameTable ctx c _ hc)

theorem afterLoop_sameTable (ctx : TableCtx) (post : List (String × Enhancer)) (c : TableCtx)
    (cur : Option AnalyseData × Option String)
    (hc : ∃ n m, c = { ctx with Name := n, Monitor := m }) :
    ∃ n m, (afterLoop c post cur).2.2 = { ctx with Name := n, Monitor := m } := by
  induction post generalizing c cur with
  | nil => exact hc
  | cons x rest ih =>
    obtain ⟨name, h⟩ := x
    exact ih _ _ (hookWrite_sameTable ctx c _ hc)

theorem preLoop_handler (ctx : TableCtx) (pre : List (String × Enhancer)) :
    (preLoop ctx pre).2.handler = ctx.handler := by
  obtain ⟨n, m, h⟩ := preLoop_sameTable ctx pre ctx ⟨ctx.Name, ctx.Monitor, rfl⟩
  rw [h]

theorem composeFrom_snoc (ctx : TableCtx) (start : Option AnalyseData × Option String)
    (l : List Enhancer) (h : Enhancer) :
    composeFrom ctx start (l ++ [h])
      = composeFrom (ctx.hookWrite (h.AfterHandle ctx start.1 start.2).2)
          (h.AfterHandle ctx start.1 start.2).1 l := by
  induction l with
  | nil => rfl
  | cons e rest ih => simp [composeFrom, ih]

theorem afterLoop_eq_composeFrom (ctx : TableCtx) (post : List (String × Enhancer))
    (cur : Option AnalyseData × Option String) :
    (afterLoop ctx post cur).2 = composeFrom ctx cur (post.map Prod.snd).reverse := by
  induction post generalizing ctx cur with
  | nil => rfl
  | cons x rest ih =>
    obtain ⟨name, h⟩ := x
    simp [afterLoop, ih, composeFrom_snoc]

theorem afterLoop_append (ctx : TableCtx) (before later : List (String × Enhancer))
    (cur : Option AnalyseData × Option String) :
    (afterLoop ctx (before ++ later) cur).2
      = (afterLoop (afterLoop ctx before cur).2.2 later (afterLoop ctx before cur).2.1).2 := by
  induction before generalizing ctx cur with
  | nil => rfl
  | cons x rest ih =>
    obtain ⟨name, h⟩ := x
    simp [afterLoop, ih]

theorem sends_append (a b : List Ev) : sends (a ++ b) = sends a ++ sends b := by
  induction a with
  | nil => rfl
  | cons x rest ih => cases x <;> simp [sends, ih]

theorem sends_preLoop (ctx : TableCtx) (pre : List (String × Enhancer)) :
    sends (preLoop ctx pre).1 = [] := by
  induction pre generalizing ctx with
  | nil => rfl
  | cons x rest ih =>
    obtain ⟨name, h⟩ := x
    simp [preLoop, sends, ih]

theorem sends_afterLoop (ctx : TableCtx) (post : List (String × Enhancer))
    (cur : Option AnalyseData × Option String) : sends (afterLoop ctx post cur).1 = [] := by
  induction post generalizing ctx cur with
  | nil => rfl
  | cons x rest ih =>
    obtain ⟨name, h⟩ := x
    simp [afterLoop, sends, ih]

theorem sends_dataProcessing (pre post : List (String × Enhancer)) (d : Bytes) (ctx : TableCtx) :
    sends (dataProcessing pre post d ctx).1
      = sends (forwardOrDrop (decisionCtx pre post d ctx) (decisionPair pre post d ctx)) := by
  simp [dataProcessing, decisionPair, decisionCtx, sends_append, sends_preLoop, sends_afterLoop,
    sends]

theorem afterLoop_keeps_error (ctx : TableCtx) (later : List (String × Enhancer))
    (hkeep : ∀ e ∈ later, ∀ n m a err,
      (e.2.AfterHandle { ctx with Name := n, Monitor := m } a (some err)).1.2.isSome = true)
    (c : TableCtx) (hc : ∃ n m, c = { ctx with Name := n, Monitor := m })
    (cur : Option AnalyseData × Option String) (herr : cur.2.isSome = true) :
    (afterLoop c later cur).2.1.2.isSome = true := by
  induction later generalizing c cur with
  | nil => simpa [afterLoop] using herr
  | cons x rest ih =>
    obtain ⟨name, h⟩ := x
    obtain ⟨a, err⟩ := cur
    cases err with
    | none => simp at herr
    | some msg =>
      simp only [afterLoop]
      apply ih
      · intro e he
        exact hkeep e (by simp [he])
      · exact hookWrite_sameTable ctx c _ hc
      · obtain ⟨n, m, rfl⟩ := hc
        exact hkeep (name, h) (by simp) n m a msg

/-- C7: for every order `post` in which the registry is visited by the second
loop and every payload, the pair on which dataProcessing decides is the
chain AfterHandle_en(ctx, ... AfterHandle_e1(ctx, decode(d)) ...), every
AfterHandle being handed the context as the hooks before it left it: with
an empty registry the pair is the decode output, every further enhancer is
applied to the pair produced by the enhancers before it, and the trace of
dataProcessing ends with the forward-or-drop decision taken on that pair. -/
theorem dataProcessing_chains_enhancers (pre post : List (String × Enhancer)) (d : Bytes)
    (ctx : TableCtx) :
    decisionPair pre post d ctx
      = (composedAfter (preLoop ctx pre).2 d (post.map Prod.snd).reverse).1 ∧
    decisionPair pre [] d ctx = ctx.handler d ∧
    (∀ (before : List (String × Enhancer)) (name : String) (e : Enhancer),
      decisionPair pre (before ++ [(name, e)]) d ctx
        = (e.AfterHandle (decisionCtx pre before d ctx) (decisionPair pre before d ctx).1
            (decisionPair pre before d ctx).2).1) ∧
    (dataProcessing pre post d ctx).1
      = (preLoop ctx pre).1
        ++ [Ev.log Level.info (preLoop ctx pre).2.Name, Ev.decode (preLoop ctx pre).2.Name d,
            Ev.log Level.debug (preLoop ctx pre).2.Name]
        ++ (afterLoop (preLoop ctx pre).2 post (ctx.handler d)).1
        ++ forwardOrDrop (composedAfter (preLoop ctx pre).2 d (post.map Prod.snd).reverse).2
            (composedAfter (preLoop ctx pre).2 d (post.map Prod.snd).reverse).1 := by
  refine ⟨?_, ?_, ?_, ?_⟩
  · simp [decisionPair, composedAfter, afterLoop_eq_composeFrom]
  · simp [decisionPair, afterLoop, preLoop_handler]
  · intro before name e
    simp [decisionPair, decisionCtx, afterLoop_append, afterLoop]
  · simp [dataProcessing, composedAfter, afterLoop_eq_composeFrom, preLoop_handler]

/-- C5 (as amended): for every delivery handled by dataProcessing, if the
decode handler or an AfterHandle returned an error (the error is non-nil
after the enhancers `before`) and every AfterHandle visited later returns an
error whenever it is given one, on the context of the table under whatever
exported fields the hooks have left in it, then no record is sent on the
output channel; with `later` empty: if the error is non-nil after the last
AfterHandle, nothing is sent. -/
theorem dataProcessing_drops_on_error (pre before later : List (String × Enhancer)) (d : Bytes)
    (ctx : TableCtx) (herr : (decisionPair pre before d ctx).2.isSome = true)
    (hkeep : ∀ e ∈ later, ∀ n m a err,
      (e.2.AfterHandle { ctx with Name := n, Monitor := m } a (some err)).1.2.isSome = true) :
    sends (dataProcessing pre (before ++ later) d ctx).1 = [] := by
  have hc : ∃ n m, decisionCtx pre before d ctx = { ctx with Name := n, Monitor := m } :=
    afterLoop_sameTable ctx before _ _ (preLoop_sameTable ctx pre ctx ⟨ctx.Name, ctx.Monitor, rfl⟩)
  have h := afterLoop_keeps_error ctx later hkeep (decisionCtx pre before d ctx) hc
    (decisionPair pre before d ctx) herr
  rw [sends_dataProcessing]
  have hp : decisionPair pre (before ++ later) d ctx
      = (afterLoop (decisionCtx pre before d ctx) later (decisionPair pre before d ctx)).2.1 := by
    simp [decisionPair, decisionCtx, afterLoop_append]
  rw [hp]
  rcases hq : (afterLoop (decisionCtx pre before d ctx) later
    (decisionPair pre before d ctx)).2.1 with ⟨a, err⟩
  rw [hq] at h
  cases err with
  | none => simp at h
  | some msg => simp [forwardOrDrop, sends]

/-- C5, witness: a failing decode followed by an enhancer that passes the
error on sends nothing. -/
theorem dataProcessing_drops_on_error_witness :
    (decisionPair [("pass", passOn)] [] [1] failingCtx).2.isSome = true ∧
    (∀ e ∈ [("pass", passOn)], ∀ (n m : String) (a : Option AnalyseData) (err : String),
      (e.2.AfterHandle { failingCtx with Name := n, Monitor := m } a (some err)).1.2.isSome
        = true) ∧
    sends (dataProcessing [("pass", passOn)] ([] ++ [("pass", passOn)]) [1] failingCtx).1 = [] :=
  ⟨rfl, by simp [passOn],
    dataProcessing_drops_on_error [("pass", passOn)] [] [("pass", passOn)] [1] failingCtx rfl
      (by simp [passOn])⟩

/-- C5, counterexample to the claim as stated: the decode handler returns an
error, the one registered enhancer replaces it by nil, and the record is
sent on the output channel. -/
theorem dataProcessing_forwards_after_cleared_error :
    (failingCtx.handler [1]).2 = some "decode failed" ∧
    sends (dataProcessing [("clear", clearError)] [("clear", clearError)] [1] failingCtx).1
      = [{ Name := "M@T", Body := "x" }] := by
  decide

end Modules
/-! ## Properties of `RegisterTable` and `SetMark` -/

namespace Modules

theorem mapGet_mapSet_self {β : Type} (k : String) (v : β) (l : List (String × β)) :
    mapGet k (mapSet k v l) = some v := by
  induction l with
  | nil => simp [mapSet, mapGet]
  | cons x rest ih =>
    obtain ⟨k1, v1⟩ := x
    by_cases hk : k1 = k
    · simp [mapSet, mapGet, hk]
    · simp [mapSet, mapGet, hk, ih]

theorem mapGet_mapSet_ne {β : Type} (k other : String) (v : β) (l : List (String × β))
    (h : other ≠ k) : mapGet other (mapSet k v l) = mapGet other l := by
  induction l with
  | nil => simp [mapSet, mapGet, Ne.symm h]
  | cons x rest ih =>
    obtain ⟨k1, v1⟩ := x
    by_cases hk : k1 = k
    · subst hk
      simp [mapSet, mapGet, Ne.symm h]
    · by_cases ho : k1 = other
      · subst ho
        simp [mapSet, mapGet, hk]
      · simp [mapSet, mapGet, hk, ho, ih]

theorem mem_mapSet {β : Type} (k : String) (v : β) (l : List (String × β)) (x : String × β)
    (h : x ∈ mapSet k v l) : x = (k, v) ∨ x ∈ l := by
  induction l with
  | nil => simpa [mapSet] using h
  | cons y rest ih =>
    obtain ⟨k1, v1⟩ := y
    by_cases hk : k1 = k
    · simp only [mapSet, hk, if_true, List.mem_cons] at h
      rcases h with h | h
      · left; exact h
      · right; simp [h]
    · simp only [mapSet, hk, if_false, List.mem_cons] at h
      rcases h with h | h
      · right; simp [h]
      · rcases ih h with h1 | h1
        · left; exact h1
        · right; simp [h1]

theorem mapSet_keys_nodup {β : Type} (k : String) (v : β) (l : List (String × β))
    (h : (l.map Prod.fst).Nodup) : ((mapSet k v l).map Prod.fst).Nodup := by
  induction l with
  | nil => simp [mapSet]
  | cons y rest ih =>
    obtain ⟨k1, v1⟩ := y
    simp only [List.map_cons, List.nodup_cons] at h
    by_cases hk : k1 = k
    · subst hk
      simpa [mapSet] using h
    · simp only [mapSet, hk, if_false, List.map_cons, List.nodup_cons]
      refine ⟨?_, ih h.2⟩
      intro hmem
      simp only [List.mem_map] at hmem
      obtain ⟨x, hx, hx1⟩ := hmem
      rcases mem_mapSet k v rest x hx with rfl | hin
      · exact hk hx1.symm
      · exact h.1 (by simp only [List.mem_map]; exact ⟨x, hin, hx1⟩)

theorem mapSet_channels_nodup (k : String) (v : TableCtx) (l : List (String × TableCtx))
    (h : (l.map fun x => x.2.channel).Nodup) (hfresh : ∀ x ∈ l, x.2.channel ≠ v.channel) :
    ((mapSet k v l).map fun x => x.2.channel).Nodup := by
  induction l with
  | nil => simp [mapSet]
  | cons y rest ih =>
    obtain ⟨k1, v1⟩ := y
    simp only [List.map_cons, List.nodup_cons] at h
    have hrest : ∀ x ∈ rest, x.2.channel ≠ v.channel := fun x hx => hfresh x (by simp [hx])
    by_cases hk : k1 = k
    · simp only [mapSet, hk, if_true, List.map_cons, List.nodup_cons]
      refine ⟨?_, h.2⟩
      intro hmem
      simp only [List.mem_map] at hmem
      obtain ⟨x, hx, hx1⟩ := hmem
      exact hrest x hx hx1
    · simp only [mapSet, hk, if_false, List.map_cons, List.nodup_cons]
      refine ⟨?_, ih h.2 hrest⟩
      intro hmem
      simp only [List.mem_map] at hmem
      obtain ⟨x, hx, hx1⟩ := hmem
      rcases mem_mapSet k v rest x hx with rfl | hin
      · exact hfresh (k1, v1) (by simp) hx1.symm
      · exact h.1 (by simp only [List.mem_map]; exact ⟨x, hin, hx1⟩)

theorem mapSet_same_shape (k : String) (v c : TableCtx) (l : List (String × TableCtx))
    (hget : mapGet k l = some c) (hch : v.channel = c.channel) :
    (mapSet k v l).map Prod.fst = l.map Prod.fst ∧
    ((mapSet k v l).map fun x => x.2.channel) = l.map fun x => x.2.channel := by
  induction l with
  | nil => simp [mapGet] at hget
  | cons y rest ih =>
    obtain ⟨k1, v1⟩ := y
    by_cases hk : k1 = k
    · simp only [mapGet, hk, if_true, Option.some.injEq] at hget
      subst hget
      simp [mapSet, hk, hch]
    · simp only [mapGet, hk, if_false] at hget
      obtain ⟨i1, i2⟩ := ih hget
      simp [mapSet, hk, i1, i2]

theorem mapGet_mem {β : Type} (k : String) (v : β) (l : List (String × β))
    (h : mapGet k l = some v) : (k, v) ∈ l := by
  induction l with
  | nil => simp [mapGet] at h
  | cons y rest ih =>
    obtain ⟨k1, v1⟩ := y
    by_cases hk : k1 = k
    · simp only [mapGet, hk, if_true, Option.some.injEq] at h
      simp [hk, h]
    · simp only [mapGet, hk, if_false] at h
      simp [ih h]

theorem registerTable_module (p : PerfResolveMonitorModule) (name : String) (loop : Bool)
    (h : Bytes → Option AnalyseData × Option String) (hname : TrimSpace name ≠ "") :
    (p.RegisterTable name loop (some h)).1 =
      { p with
        tableIds := p.tableIds ++ [TrimSpace name]
        table2Ctx := mapSet (TrimSpace name)
          { Name := p.Monitor ++ "@" ++ TrimSpace name, loop := loop,
            channel := p.tableIds.length, handler := h, mark := [], Monitor := p.Monitor }
          p.table2Ctx } := by
  have hlen : goLen (TrimSpace name) ≠ 0 := fun h0 => hname ((goLen_eq_zero_iff _).1 h0)
  cases loop <;> simp [PerfResolveMonitorModule.RegisterTable, hlen]

theorem wellFormed_new (m : String) : (NewPerfResolveMonitorModule m).WellFormed := by
  simp [PerfResolveMonitorModule.WellFormed, NewPerfResolveMonitorModule]

theorem wellFormed_registerTable (p : PerfResolveMonitorModule) (name : String) (loop : Bool)
    (handler : Option (Bytes → Option AnalyseData × Option String)) (h : p.WellFormed) :
    (p.RegisterTable name loop handler).1.WellFormed := by
  obtain ⟨h1, h2, h3⟩ := h
  cases handler with
  | none => exact ⟨h1, h2, h3⟩
  | some hd =>
    by_cases hname : TrimSpace name = ""
    · have hlen : goLen (TrimSpace name) = 0 := (goLen_eq_zero_iff _).2 hname
      simpa [PerfResolveMonitorModule.RegisterTable, hlen] using ⟨h1, h2, h3⟩
    · rw [registerTable_module p name loop hd hname]
      refine ⟨mapSet_keys_nodup _ _ _ h1, mapSet_channels_nodup _ _ _ h2 ?_, ?_⟩
      · intro x hx
        exact Nat.ne_of_lt (h3 x hx)
      · intro x hx
        rcases mem_mapSet _ _ _ x hx with rfl | hin
        · simp
        · have := h3 x hin
          simp only [List.length_append, List.length_singleton]
          omega

theorem wellFormed_setMark (p : PerfResolveMonitorModule) (name mk : String)
    (h : p.WellFormed) : (p.SetMark name mk).WellFormed := by
  obtain ⟨h1, h2, h3⟩ := h
  cases hget : mapGet name p.table2Ctx with
  | none => simpa [PerfResolveMonitorModule.SetMark, hget] using ⟨h1, h2, h3⟩
  | some c =>
    obtain ⟨s1, s2⟩ := mapSet_same_shape name { c with mark := markAdd mk c.mark } c
      p.table2Ctx hget rfl
    simp only [PerfResolveMonitorModule.SetMark, hget, PerfResolveMonitorModule.WellFormed]
    refine ⟨by rw [s1]; exact h1, by rw [s2]; exact h2, ?_⟩
    intro x hx
    rcases mem_mapSet _ _ _ x hx with rfl | hin
    · exact h3 (name, c) (mapGet_mem _ _ _ hget)
    · exact h3 x hin

theorem wellFormed_registerStopHandle (p : PerfResolveMonitorModule) (handler : Option String)
    (h : p.WellFormed) : (p.RegisterStopHandle handler).WellFormed := h

/-- C8 (as amended): after RegisterTable(name, loop, handler) with a non-nil
handler and a name that is not blank, SetMark called with the registered
key, which is the trimmed name, makes IsMark(mk) true on the context of that
table, changes nothing else in that context, and leaves the context of
every other table as it was; SetMark with a name under which no table is
registered leaves the module unchanged. The same holds at any later time:
in every module in which a table is registered under a key, whatever marks
it already has, SetMark with that key adds mk to the marks of its context,
keeps every mark that was set, sets no other mark, changes no other field
of the context or of the module and no other context. -/
theorem setMark_on_registered_key (p : PerfResolveMonitorModule) (name : String) (loop : Bool)
    (h : Bytes → Option AnalyseData × Option String) (mk : String)
    (hname : TrimSpace name ≠ "") :
    (∃ ctx1 ctx2,
      mapGet (TrimSpace name) (p.RegisterTable name loop (some h)).1.table2Ctx = some ctx1 ∧
      mapGet (TrimSpace name)
        ((p.RegisterTable name loop (some h)).1.SetMark (TrimSpace name) mk).table2Ctx
          = some ctx2 ∧
      ctx2.IsMark mk = true ∧ ctx2 = { ctx1 with mark := markAdd mk ctx1.mark }) ∧
    (∀ other, other ≠ TrimSpace name →
      mapGet other ((p.RegisterTable name loop (some h)).1.SetMark (TrimSpace name) mk).table2Ctx
        = mapGet other (p.RegisterTable name loop (some h)).1.table2Ctx) ∧
    (∀ (q : PerfResolveMonitorModule) (k : String), mapGet k q.table2Ctx = none →
      q.SetMark k mk = q) ∧
    (∀ (q : PerfResolveMonitorModule) (k : String) (c : TableCtx),
      mapGet k q.table2Ctx = some c →
      (∃ c2, mapGet k (q.SetMark k mk).table2Ctx = some c2 ∧
        c2.IsMark mk = true ∧
        (∀ other, c.IsMark other = true → c2.IsMark other = true) ∧
        (∀ other, other ≠ mk → c2.IsMark other = c.IsMark other) ∧
        c2 = { c with mark := markAdd mk c.mark }) ∧
      (∀ other, other ≠ k →
        mapGet other (q.SetMark k mk).table2Ctx = mapGet other q.table2Ctx) ∧
      (q.SetMark k mk).tableIds = q.tableIds ∧
      (q.SetMark k mk).stopHandler = q.stopHandler ∧
      (q.SetMark k mk).Monitor = q.Monitor) := by
  rw [registerTable_module p name loop h hname]
  refine ⟨?_, ?_, ?_, ?_⟩
  · refine ⟨_, _, mapGet_mapSet_self _ _ _, ?_, ?_, rfl⟩
    · simp only [PerfResolveMonitorModule.SetMark, mapGet_mapSet_self]
    · simp [TableCtx.IsMark, markAdd]
  · intro other ho
    simp only [PerfResolveMonitorModule.SetMark, mapGet_mapSet_self]
    rw [mapGet_mapSet_ne _ _ _ _ ho]
  · intro q k hk
    simp [PerfResolveMonitorModule.SetMark, hk]
  · intro q k c hk
    refine ⟨⟨{ c with mark := markAdd mk c.mark }, ?_, ?_, ?_, ?_, rfl⟩, ?_, ?_, ?_, ?_⟩
    · simp only [PerfResolveMonitorModule.SetMark, hk, mapGet_mapSet_self]
    · by_cases hm : mk ∈ c.mark <;> simp [TableCtx.IsMark, markAdd, hm]
    · intro other ho
      by_cases hm : mk ∈ c.mark
      · simpa [TableCtx.IsMark, markAdd, hm] using ho
      · simp only [TableCtx.IsMark, decide_eq_true_eq] at ho
        simp [TableCtx.IsMark, markAdd, hm, ho]
    · intro other ho
      by_cases hm : mk ∈ c.mark
      · simp [TableCtx.IsMark, markAdd, hm]
      · simp [TableCtx.IsMark, markAdd, hm, ho]
    · intro other ho
      simp only [PerfResolveMonitorModule.SetMark, hk]
      rw [mapGet_mapSet_ne _ _ _ _ ho]
    · simp [PerfResolveMonitorModule.SetMark, hk]
    · simp [PerfResolveMonitorModule.SetMark, hk]
    · simp [PerfResolveMonitorModule.SetMark, hk]

/-- C8, witness: table T registered as " T "; SetMark("T", "m") sets the
mark, and after SetMark("T", "a") and SetMark("T", "b") both marks are set,
on a second table U neither. -/
theorem setMark_on_registered_key_witness :
    TrimSpace " T " ≠ "" ∧
    ((∃ ctx1 ctx2,
      mapGet (TrimSpace " T ")
        ((NewPerfResolveMonitorModule "M").RegisterTable " T " true (some demoHandler)).1.table2Ctx
          = some ctx1 ∧
      mapGet (TrimSpace " T ")
        (((NewPerfResolveMonitorModule "M").RegisterTable " T " true (some demoHandler)).1.SetMark
          (TrimSpace " T ") "m").table2Ctx = some ctx2 ∧
      ctx2.IsMark "m" = true ∧ ctx2 = { ctx1 with mark := markAdd "m" ctx1.mark }) ∧
    (∀ other, other ≠ TrimSpace " T " →
      mapGet other
        (((NewPerfResolveMonitorModule "M").RegisterTable " T " true (some demoHandler)).1.SetMark
          (TrimSpace " T ") "m").table2Ctx
        = mapGet other
          ((NewPerfResolveMonitorModule "M").RegisterTable " T " true (some demoHandler)).1.table2Ctx) ∧
    (∀ (q : PerfResolveMonitorModule) (k : String), mapGet k q.table2Ctx = none →
      q.SetMark k "m" = q)) ∧
    (((NewPerfResolveMonitorModule "M").RegisterTable " T " true (some demoHandler)).1.SetMark
      "T" "m").table2Ctx.map (fun x => (x.1, x.2.mark)) = [("T", ["m"])] ∧
    ((onceModule.SetMark "T" "a").SetMark "T" "b").table2Ctx.map
        (fun x => (x.1, x.2.IsMark "a", x.2.IsMark "b", x.2.IsMark "c"))
      = [("T", true, true, false), ("U", false, false, false)] ∧
    ((onceModule.SetMark "T" "a").SetMark "T" "b").table2Ctx.map
        (fun x => (x.2.Name, x.2.loop, x.2.channel))
      = [("M@T", false, 0), ("M@U", true, 1)] ∧
    (((onceModule.SetMark "T" "a").SetMark "T" "b").SetMark "T" "a").table2Ctx.map
        (fun x => (x.1, x.2.mark))
      = [("T", ["b", "a"]), ("U", [])] := by
  obtain ⟨h1, h2, h3, _⟩ :=
    setMark_on_registered_key (NewPerfResolveMonitorModule "M") " T " true demoHandler "m"
      (by decide)
  exact ⟨by decide, ⟨h1, h2, h3⟩, by decide, by decide, by decide, by decide⟩

/-- C8, counterexample to the claim as stated: RegisterTable(" T", ...)
registers the table under the key "T"; the following SetMark(" T", "m")
with that same name finds no table and sets no mark, so IsMark("m") is false
on the context of the table. -/
theorem setMark_with_untrimmed_name_is_noop :
    TrimSpace " T" ≠ "" ∧
    ((NewPerfResolveMonitorModule "M").RegisterTable " T" true (some demoHandler)).1.tableIds
      = ["T"] ∧
    ((((NewPerfResolveMonitorModule "M").RegisterTable " T" true (some demoHandler)).1.SetMark
      " T" "m").table2Ctx.map (fun x => (x.1, x.2.IsMark "m"))) = [("T", false)] := by
  decide

end Modules
/-! ## The select set built by `buildSelectCase` -/

namespace Modules

theorem fillCases_spec (iter : List (String × TableCtx)) (done : List SelectCase)
    (names : List String) (k : Nat) (hlen : names.length = done.length) :
    fillCases iter done.length
        (done ++ List.replicate (iter.length + k) zeroCase, names ++ List.replicate iter.length "")
      = (done ++ iter.map (fun x => tableCase x.2) ++ List.replicate k zeroCase,
         names ++ iter.map Prod.fst) := by
  induction iter generalizing done names with
  | nil => simp [fillCases]
  | cons x rest ih =>
    obtain ⟨t, c⟩ := x
    have h1 : (done ++ List.replicate (rest.length + 1 + k) zeroCase).set done.length
        (tableCase c) = (done ++ [tableCase c]) ++ List.replicate (rest.length + k) zeroCase := by
      rw [List.set_append_right _ _ (Nat.le_refl _)]
      have : rest.length + 1 + k = (rest.length + k) + 1 := by omega
      rw [this, List.replicate_succ]
      simp
    have h2 : (names ++ List.replicate (rest.length + 1) "").set done.length t
        = (names ++ [t]) ++ List.replicate rest.length "" := by
      rw [← hlen, List.set_append_right _ _ (Nat.le_refl _), List.replicate_succ]
      simp
    have hlen2 : (names ++ [t]).length = (done ++ [tableCase c]).length := by simp [hlen]
    have := ih (done ++ [tableCase c]) (names ++ [t]) hlen2
    simp only [List.length_append, List.length_singleton] at this
    simp only [fillCases, List.length_cons]
    have h1b : (done ++ List.replicate (rest.length + 1 + k) zeroCase).set done.length
        { Dir := SelectDir.SelectRecv, Chan := some (Channel.table c.channel) }
          = (done ++ [tableCase c]) ++ List.replicate (rest.length + k) zeroCase := h1
    rw [h1b, h2, this]
    simp

theorem buildSelectCase_plain (iter : List (String × TableCtx)) :
    buildSelectCase (iter.length + 1) iter
      = (iter.map (fun x => tableCase x.2) ++ [readyCase], iter.map Prod.fst) := by
  have h := fillCases_spec iter [] [] 1 rfl
  simp only [List.nil_append, List.length_nil] at h
  have hz : ({ Dir := SelectDir.zero, Chan := none } : SelectCase) = zeroCase := rfl
  simp only [buildSelectCase, hz, h]
  have hset : (List.map (fun x => tableCase x.2) iter ++ List.replicate 1 zeroCase).set iter.length
      { Dir := SelectDir.SelectSend, Chan := some Channel.ready }
        = List.map (fun x => tableCase x.2) iter ++ [readyCase] := by
    rw [List.set_append_right _ _ (by simp)]
    simp [readyCase]
  simp [hset, readyCase]

theorem buildSelectCase_stop (iter : List (String × TableCtx)) :
    buildSelectCase (iter.length + 1 + 1) iter
      = (iter.map (fun x => tableCase x.2) ++ [readyCase, stopCase], iter.map Prod.fst) := by
  have h := fillCases_spec iter [] [] 2 rfl
  simp only [List.nil_append, List.length_nil] at h
  have hz : ({ Dir := SelectDir.zero, Chan := none } : SelectCase) = zeroCase := rfl
  simp only [buildSelectCase, hz, h]
  have hset : ((List.map (fun x => tableCase x.2) iter ++ List.replicate 2 zeroCase).set
      iter.length { Dir := SelectDir.SelectSend, Chan := some Channel.ready }).set
        (iter.length + 1) { Dir := SelectDir.SelectRecv, Chan := some Channel.stop }
        = List.map (fun x => tableCase x.2) iter ++ [readyCase, stopCase] := by
    rw [List.set_append_right _ _ (by simp), List.set_append_right _ _ (by simp)]
    simp [readyCase, stopCase, List.replicate]
  simp [hset, readyCase, stopCase]

end Modules

/-! ## Properties of the select loop of `Resolve` -/

namespace Modules

open Bcc (Level LogResult logErrorf)

theorem selectIndex_some (o : Offer) (cs : List SelectCase) (i : Nat)
    (h : selectIndex o cs = some i) :
    ∃ c, cs[i]? = some c ∧ c.Dir = o.dir ∧ c.Chan = some o.chan := by
  induction cs generalizing i with
  | nil => simp [selectIndex] at h
  | cons c rest ih =>
    by_cases hc : c.Dir = o.dir ∧ c.Chan = some o.chan
    · simp only [selectIndex, hc, and_self, if_true, Option.some.injEq] at h
      subst h
      exact ⟨c, by simp, hc.1, hc.2⟩
    · simp only [selectIndex, hc, if_false, Option.map_eq_some'] at h
      obtain ⟨j, hj, rfl⟩ := h
      obtain ⟨c1, h1, h2⟩ := ih j hj
      exact ⟨c1, by simpa using h1, h2⟩

theorem mem_retireCase (i : Nat) (cs : List SelectCase) (c : SelectCase)
    (h : c ∈ retireCase i cs) : c ∈ cs ∨ c.Chan = none := by
  induction cs generalizing i with
  | nil => simp [retireCase] at h
  | cons x rest ih =>
    cases i with
    | zero =>
      simp only [retireCase, List.mem_cons] at h
      rcases h with h | h
      · right; rw [h]
      · left; simp [h]
    | succ n =>
      simp only [retireCase, List.mem_cons] at h
      rcases h with h | h
      · left; simp [h]
      · rcases ih n h with h1 | h1
        · left; simp [h1]
        · right; exact h1

theorem loopBody_state (p : PerfResolveMonitorModule) (chCnt : Nat) (tableNames : List String)
    (s : LoopState) (pick : Pick) :
    ((loopBody p chCnt tableNames s pick).2.1.cases = s.cases ∧
      (loopBody p chCnt tableNames s pick).2.1.remaining = s.remaining) ∨
    ∃ chosen, selectIndex pick.offer s.cases = some chosen ∧
      (loopBody p chCnt tableNames s pick).2.1.cases = retireCase chosen s.cases ∧
      (loopBody p chCnt tableNames s pick).2.1.remaining = s.remaining - 1 := by
  unfold loopBody
  split
  · left; exact ⟨rfl, rfl⟩
  · rename_i chosen hsel
    dsimp only
    repeat' split
    all_goals first
      | (left; exact ⟨rfl, rfl⟩)
      | (right; exact ⟨chosen, hsel, rfl, rfl⟩)

theorem runLoop_done (p : PerfResolveMonitorModule) (chCnt : Nat) (tableNames : List String)
    (s : LoopState) (picks : List Pick) (h : ¬ s.remaining > 0) :
    runLoop p chCnt tableNames s picks = ([], s, LoopEnd.exited) := by
  cases picks <;> simp [runLoop, h]

theorem loopBody_keeps_noStop (p : PerfResolveMonitorModule) (chCnt : Nat)
    (tableNames : List String) (s : LoopState) (pick : Pick)
    (h : ∀ c ∈ s.cases, c.Chan ≠ some Channel.stop) :
    ∀ c ∈ (loopBody p chCnt tableNames s pick).2.1.cases, c.Chan ≠ some Channel.stop := by
  rcases loopBody_state p chCnt tableNames s pick with hs | ⟨chosen, _, hs, _⟩
  · rw [hs.1]; exact h
  · rw [hs]
    intro c hc
    rcases mem_retireCase chosen s.cases c hc with h1 | h1
    · exact h c h1
    · simp [h1]

theorem loopBody_stop_offer (p : PerfResolveMonitorModule) (chCnt : Nat)
    (tableNames : List String) (s : LoopState) (pick : Pick)
    (h : ∀ c ∈ s.cases, c.Chan ≠ some Channel.stop) (hp : pick.offer.chan = Channel.stop) :
    loopBody p chCnt tableNames s pick = ([], s, Ctl.next) := by
  have hsel : selectIndex pick.offer s.cases = none := by
    cases hq : selectIndex pick.offer s.cases with
    | none => rfl
    | some i =>
      obtain ⟨c, hc, _, hchan⟩ := selectIndex_some _ _ _ hq
      exact absurd (hp ▸ hchan) (h c (List.getElem?_mem hc))
  simp [loopBody, hsel]

theorem runLoop_ignores_stop (p : PerfResolveMonitorModule) (chCnt : Nat)
    (tableNames : List String) (picks : List Pick) (s : LoopState)
    (h : ∀ c ∈ s.cases, c.Chan ≠ some Channel.stop) :
    runLoop p chCnt tableNames s picks
      = runLoop p chCnt tableNames s
          (picks.filter fun k => decide (k.offer.chan ≠ Channel.stop)) := by
  induction picks generalizing s with
  | nil => rfl
  | cons pick rest ih =>
    by_cases hrem : s.remaining > 0
    · by_cases hp : pick.offer.chan = Channel.stop
      · have hb := loopBody_stop_offer p chCnt tableNames s pick h hp
        rw [List.filter_cons_of_neg (by simp [hp])]
        rw [← ih s h]
        simp [runLoop, hrem, hb]
      · rw [List.filter_cons_of_pos (by simp [hp])]
        have hn := loopBody_keeps_noStop p chCnt tableNames s pick h
        simp only [runLoop, hrem, if_true]
        rw [← ih _ hn]
    · rw [runLoop_done _ _ _ _ _ hrem, runLoop_done _ _ _ _ _ hrem]

theorem initialLoop_plain (p : PerfResolveMonitorModule) (iter : List (String × TableCtx))
    (hstop : p.stopHandler = none) (hlen : iter.length = p.table2Ctx.length) :
    buildSelectCase (caseCount p) iter
      = (iter.map (fun x => tableCase x.2) ++ [readyCase], iter.map Prod.fst) := by
  have hc : caseCount p = iter.length + 1 := by simp [caseCount, hstop, hlen]
  rw [hc, buildSelectCase_plain]

theorem initialLoop_stop (p : PerfResolveMonitorModule) (iter : List (String × TableCtx))
    (hstop : p.stopHandler.isSome = true) (hlen : iter.length = p.table2Ctx.length) :
    buildSelectCase (caseCount p) iter
      = (iter.map (fun x => tableCase x.2) ++ [readyCase, stopCase], iter.map Prod.fst) := by
  have hc : caseCount p = iter.length + 1 + 1 := by simp [caseCount, hstop, hlen]
  rw [hc, buildSelectCase_stop]

/-- C3 (as amended): for every module on which no stop handler is
registered, no case of the select set built for the loop refers to the
cancellation channel, and signalling that channel is never observed: the
loop runs exactly as it does with the cancellation signals left out of the
schedule, so deliveries that follow a signal are still processed. -/
theorem cancellation_unobserved_without_stopHandler (p : PerfResolveMonitorModule)
    (iter : List (String × TableCtx)) (picks : List Pick)
    (hstop : p.stopHandler = none) (hiter : iter.Perm p.table2Ctx) :
    (∀ c ∈ (initialLoop p iter).cases, c.Chan ≠ some Channel.stop) ∧
    resolveWorker p iter picks
      = resolveWorker p iter (picks.filter fun k => decide (k.offer.chan ≠ Channel.stop)) := by
  have hcases : ∀ c ∈ (initialLoop p iter).cases, c.Chan ≠ some Channel.stop := by
    intro c hc
    simp only [initialLoop, initialLoop_plain p iter hstop hiter.length_eq, List.mem_append,
      List.mem_map, List.mem_singleton] at hc
    rcases hc with ⟨x, _, rfl⟩ | rfl
    · simp [tableCase]
    · simp [readyCase]
  exact ⟨hcases, runLoop_ignores_stop p _ _ picks _ hcases⟩

/-- C3, witness: monitor M with the one continuous table T, no enhancers, no
stop handler, cancellation signalled after 3 deliveries: exactly 3 records
named M@T are forwarded, and the loop is then still waiting in its select. -/
theorem cancellation_unobserved_without_stopHandler_witness :
    demoModule.stopHandler = none ∧ demoModule.table2Ctx.Perm demoModule.table2Ctx ∧
    ((∀ c ∈ (initialLoop demoModule demoModule.table2Ctx).cases, c.Chan ≠ some Channel.stop) ∧
      resolveWorker demoModule demoModule.table2Ctx
          [delivery 1, delivery 2, delivery 3, cancelPick]
        = resolveWorker demoModule demoModule.table2Ctx
            ([delivery 1, delivery 2, delivery 3, cancelPick].filter
              fun k => decide (k.offer.chan ≠ Channel.stop))) ∧
    sends (resolveWorker demoModule demoModule.table2Ctx
        [delivery 1, delivery 2, delivery 3, cancelPick]).1
      = [{ Name := "M@T", Body := "x" }, { Name := "M@T", Body := "x" },
         { Name := "M@T", Body := "x" }] ∧
    (resolveWorker demoModule demoModule.table2Ctx
        [delivery 1, delivery 2, delivery 3, cancelPick]).2.2 = LoopEnd.waiting :=
  ⟨rfl, List.Perm.refl _,
    cancellation_unobserved_without_stopHandler demoModule demoModule.table2Ctx
      [delivery 1, delivery 2, delivery 3, cancelPick] rfl (List.Perm.refl _),
    by decide, by decide⟩

/-- C3, counterexample to the claim as stated: monitor M with the one
continuous table T and no stop handler. The cancellation channel is
signalled after 3 deliveries; the loop does not exit, and the delivery that
follows is processed and forwarded as a fourth record. -/
theorem loop_survives_cancellation :
    demoModule.tableIds = ["T"] ∧
    (resolveWorker demoModule demoModule.table2Ctx
        [delivery 1, delivery 2, delivery 3, cancelPick]).2.2 = LoopEnd.waiting ∧
    (resolveWorker demoModule demoModule.table2Ctx
        [delivery 1, delivery 2, delivery 3, cancelPick, delivery 4]).2.2 = LoopEnd.waiting ∧
    payloadsOf "T" (resolveWorker demoModule demoModule.table2Ctx
        [delivery 1, delivery 2, delivery 3, cancelPick, delivery 4]).1 = [[1], [2], [3], [4]] ∧
    (sends (resolveWorker demoModule demoModule.table2Ctx
        [delivery 1, delivery 2, delivery 3, cancelPick, delivery 4]).1).length = 4 := by
  decide

theorem selectIndex_append_skip (o : Offer) (l1 l2 : List SelectCase)
    (h : ∀ c ∈ l1, ¬ (c.Dir = o.dir ∧ c.Chan = some o.chan)) :
    selectIndex o (l1 ++ l2) = (selectIndex o l2).map (· + l1.length) := by
  induction l1 with
  | nil => simp
  | cons c rest ih =>
    have hc := h c (by simp)
    have hr := ih (fun x hx => h x (by simp [hx]))
    show selectIndex o (c :: (rest ++ l2)) = _
    simp only [selectIndex, hc, if_false, hr]
    cases selectIndex o l2 <;> simp [Nat.add_assoc]

theorem stopHandlerCalls_append (a b : List Ev) :
    stopHandlerCalls (a ++ b) = stopHandlerCalls a ++ stopHandlerCalls b := by
  induction a with
  | nil => rfl
  | cons x rest ih => cases x <;> simp [stopHandlerCalls, ih]

theorem stopHandlerCalls_preLoop (ctx : TableCtx) (pre : List (String × Enhancer)) :
    stopHandlerCalls (preLoop ctx pre).1 = [] := by
  induction pre generalizing ctx with
  | nil => rfl
  | cons x rest ih =>
    obtain ⟨name, h⟩ := x
    simp [preLoop, stopHandlerCalls, ih]

theorem stopHandlerCalls_afterLoop (ctx : TableCtx) (post : List (String × Enhancer))
    (cur : Option AnalyseData × Option String) :
    stopHandlerCalls (afterLoop ctx post cur).1 = [] := by
  induction post generalizing ctx cur with
  | nil => rfl
  | cons x rest ih =>
    obtain ⟨name, h⟩ := x
    simp [afterLoop, stopHandlerCalls, ih]

theorem stopHandlerCalls_forwardOrDrop (ctx : TableCtx)
    (r : Option AnalyseData × Option String) : stopHandlerCalls (forwardOrDrop ctx r) = [] := by
  obtain ⟨a, err⟩ := r
  cases a <;> cases err <;> simp only [forwardOrDrop] <;> first | rfl | (split <;> rfl)

theorem stopHandlerCalls_dataProcessing (pre post : List (String × Enhancer)) (d : Bytes)
    (ctx : TableCtx) : stopHandlerCalls (dataProcessing pre post d ctx).1 = [] := by
  simp [dataProcessing, stopHandlerCalls_append, stopHandlerCalls_preLoop,
    stopHandlerCalls_afterLoop, stopHandlerCalls_forwardOrDrop, stopHandlerCalls]

theorem stopHandlerCalls_sel (chosen : Nat) (ok : Bool) (b : Prop) [Decidable b] :
    stopHandlerCalls
      (if b then [Ev.selected chosen ok, Ev.readySent] else [Ev.selected chosen ok]) = [] := by
  split <;> rfl

theorem loopBody_never_calls_stopHandler (p : PerfResolveMonitorModule) (chCnt : Nat)
    (tableNames : List String) (s : LoopState) (pick : Pick)
    (hlen : tableNames.length = chCnt) :
    stopHandlerCalls (loopBody p chCnt tableNames s pick).1 = [] ∧
    (loopBody p chCnt tableNames s pick).2.2 ≠ Ctl.ret := by
  unfold loopBody
  split
  · simp [stopHandlerCalls]
  · rename_i chosen hsel
    dsimp only
    split
    · simp [stopHandlerCalls_sel]
    · split
      · simp [stopHandlerCalls_append, stopHandlerCalls_sel, stopHandlerCalls]
      · rename_i tName htn
        have hlt : chosen < chCnt := by
          have := (List.getElem?_eq_some_iff.1 htn).1
          omega
        have h1 : chosen ≠ chCnt + 1 := by omega
        simp only [h1, if_false]
        repeat' split
        all_goals
          simp [stopHandlerCalls_append, stopHandlerCalls_sel, stopHandlerCalls,
            stopHandlerCalls_dataProcessing]

theorem runLoop_never_calls_stopHandler (p : PerfResolveMonitorModule) (chCnt : Nat)
    (tableNames : List String) (hlen : tableNames.length = chCnt) (picks : List Pick)
    (s : LoopState) :
    stopHandlerCalls (runLoop p chCnt tableNames s picks).1 = [] ∧
    (runLoop p chCnt tableNames s picks).2.2 ≠ LoopEnd.returned := by
  induction picks generalizing s with
  | nil => simp only [runLoop]; split <;> simp [stopHandlerCalls]
  | cons pick rest ih =>
    obtain ⟨hb, hctl⟩ := loopBody_never_calls_stopHandler p chCnt tableNames s pick hlen
    simp only [runLoop]
    split
    · split
      · have := ih (loopBody p chCnt tableNames s pick).2.1
        simp [stopHandlerCalls_append, hb, this]
      · rename_i h
        exact absurd h hctl
      · simp [hb]
    · simp [stopHandlerCalls]

/-- C10, evaluated on the code: for every module with a stop handler the
slice of table names has one entry per table (length chCnt), every table
case has an index inside it, the cancellation case is the one at index
chCnt + 1, and a value received from the cancellation channel makes the
lookup `tableNames[chosen]` fail with index out of range: the pass ends in
a panic, and in no run does the loop call the stop handler or return. -/
theorem cancellation_lookup_out_of_range (p : PerfResolveMonitorModule)
    (iter : List (String × TableCtx)) (hstop : p.stopHandler.isSome = true)
    (hiter : iter.Perm p.table2Ctx) :
    (buildSelectCase (caseCount p) iter).2.length = p.table2Ctx.length ∧
    (∀ chosen, chosen < p.table2Ctx.length →
      ((buildSelectCase (caseCount p) iter).2[chosen]?).isSome = true) ∧
    selectIndex Offer.cancel (initialLoop p iter).cases = some (p.table2Ctx.length + 1) ∧
    (buildSelectCase (caseCount p) iter).2[p.table2Ctx.length + 1]? = none ∧
    (∀ (s : LoopState) (pick : Pick), pick.offer = Offer.cancel →
      selectIndex Offer.cancel s.cases = some (p.table2Ctx.length + 1) →
      loopBody p p.table2Ctx.length (buildSelectCase (caseCount p) iter).2 s pick
        = ([Ev.selected (p.table2Ctx.length + 1) true, Ev.panic "index out of range"], s,
            Ctl.panic)) ∧
    (∀ picks : List Pick, stopHandlerCalls (resolveWorker p iter picks).1 = [] ∧
      (resolveWorker p iter picks).2.2 ≠ LoopEnd.returned) := by
  have hb := initialLoop_stop p iter hstop hiter.length_eq
  have hlen : (buildSelectCase (caseCount p) iter).2.length = p.table2Ctx.length := by
    rw [hb]; simp [hiter.length_eq]
  have hnone : (buildSelectCase (caseCount p) iter).2[p.table2Ctx.length + 1]? = none :=
    List.getElem?_eq_none (by omega)
  refine ⟨hlen, ?_, ?_, hnone, ?_, ?_⟩
  · intro chosen hc
    rw [Option.isSome_iff_exists]
    exact ⟨_, List.getElem?_eq_getElem (by omega)⟩
  · simp only [initialLoop, hb]
    rw [selectIndex_append_skip]
    · simp [selectIndex, readyCase, stopCase, Offer.dir, Offer.chan, hiter.length_eq]
      omega
    · intro c hc
      simp only [List.mem_map] at hc
      obtain ⟨x, _, rfl⟩ := hc
      simp [tableCase, Offer.chan]
  · intro s pick hpick hsel
    simp [loopBody, hpick, hsel, hnone, Offer.ok, Offer.dir]
  · intro picks
    exact runLoop_never_calls_stopHandler p _ _ hlen picks _

/-- C10, witness: monitor M with the continuous table T and a stop handler.
The slice of table names is ["T"], the cancellation case has index 2, and a
value received from the stop channel ends the goroutine in a panic. -/
theorem cancellation_lookup_out_of_range_witness :
    stopModule.stopHandler.isSome = true ∧ stopModule.table2Ctx.Perm stopModule.table2Ctx ∧
    ((buildSelectCase (caseCount stopModule) stopModule.table2Ctx).2.length
        = stopModule.table2Ctx.length ∧
      (∀ chosen, chosen < stopModule.table2Ctx.length →
        ((buildSelectCase (caseCount stopModule) stopModule.table2Ctx).2[chosen]?).isSome = true) ∧
      selectIndex Offer.cancel (initialLoop stopModule stopModule.table2Ctx).cases
        = some (stopModule.table2Ctx.length + 1) ∧
      (buildSelectCase (caseCount stopModule) stopModule.table2Ctx).2[
        stopModule.table2Ctx.length + 1]? = none ∧
      (∀ (s : LoopState) (pick : Pick), pick.offer = Offer.cancel →
        selectIndex Offer.cancel s.cases = some (stopModule.table2Ctx.length + 1) →
        loopBody stopModule stopModule.table2Ctx.length
            (buildSelectCase (caseCount stopModule) stopModule.table2Ctx).2 s pick
          = ([Ev.selected (stopModule.table2Ctx.length + 1) true,
              Ev.panic "index out of range"], s, Ctl.panic)) ∧
      (∀ picks : List Pick,
        stopHandlerCalls (resolveWorker stopModule stopModule.table2Ctx picks).1 = [] ∧
        (resolveWorker stopModule stopModule.table2Ctx picks).2.2 ≠ LoopEnd.returned)) ∧
    (buildSelectCase (caseCount stopModule) stopModule.table2Ctx).2 = ["T"] ∧
    (resolveWorker stopModule stopModule.table2Ctx [delivery 1, cancelPick, delivery 2]).1
      = [Ev.selected 0 true, Ev.process "T" [1], Ev.log Level.info "M@T",
          Ev.decode "M@T" [1], Ev.log Level.debug "M@T",
          Ev.send { Name := "M@T", Body := "x" },
          Ev.selected 2 true, Ev.panic "index out of range"] ∧
    (resolveWorker stopModule stopModule.table2Ctx [delivery 1, cancelPick, delivery 2]).2.2
      = LoopEnd.panicked ∧
    (resolveWorker stopModule stopModule.table2Ctx [delivery 1, cancelPick, delivery 2]).2.1.cases
      = (initialLoop stopModule stopModule.table2Ctx).cases ∧
    (resolveWorker stopModule stopModule.table2Ctx
        [delivery 1, cancelPick, delivery 2]).2.1.remaining = 3 :=
  ⟨rfl, List.Perm.refl _,
    cancellation_lookup_out_of_range stopModule stopModule.table2Ctx rfl (List.Perm.refl _),
    by decide, by decide, by decide, by decide, by decide⟩

theorem countP_retireCase (q : SelectCase → Bool) (hq : ∀ c, c.Chan = none → q c = false)
    (i : Nat) (cs : List SelectCase) (c : SelectCase) (h : cs[i]? = some c) :
    (retireCase i cs).countP q + (if q c = true then 1 else 0) = cs.countP q := by
  induction cs generalizing i with
  | nil => simp at h
  | cons x rest ih =>
    cases i with
    | zero =>
      simp only [List.getElem?_cons_zero, Option.some.injEq] at h
      subst h
      have h0 : q { x with Chan := none } = false := hq _ rfl
      simp [retireCase, List.countP_cons, h0]
    | succ n =>
      simp only [List.getElem?_cons_succ] at h
      have := ih n h
      simp only [retireCase, List.countP_cons]
      omega

theorem readyCount_append (a b : List Ev) : readyCount (a ++ b) = readyCount a + readyCount b := by
  induction a with
  | nil => simp [readyCount]
  | cons x rest ih =>
    cases x <;> simp [readyCount, ih]
    omega

theorem readyCount_preLoop (ctx : TableCtx) (pre : List (String × Enhancer)) :
    readyCount (preLoop ctx pre).1 = 0 := by
  induction pre generalizing ctx with
  | nil => rfl
  | cons x rest ih =>
    obtain ⟨name, h⟩ := x
    simp [preLoop, readyCount, ih]

theorem readyCount_afterLoop (ctx : TableCtx) (post : List (String × Enhancer))
    (cur : Option AnalyseData × Option String) : readyCount (afterLoop ctx post cur).1 = 0 := by
  induction post generalizing ctx cur with
  | nil => rfl
  | cons x rest ih =>
    obtain ⟨name, h⟩ := x
    simp [afterLoop, readyCount, ih]

theorem readyCount_forwardOrDrop (ctx : TableCtx) (r : Option AnalyseData × Option String) :
    readyCount (forwardOrDrop ctx r) = 0 := by
  obtain ⟨a, err⟩ := r
  cases a <;> cases err <;> simp only [forwardOrDrop] <;> first | rfl | (split <;> rfl)

theorem readyCount_dataProcessing (pre post : List (String × Enhancer)) (d : Bytes)
    (ctx : TableCtx) : readyCount (dataProcessing pre post d ctx).1 = 0 := by
  simp [dataProcessing, readyCount_append, readyCount_preLoop, readyCount_afterLoop,
    readyCount_forwardOrDrop, readyCount]

theorem readyCount_sel (chosen : Nat) (ok : Bool) (b : Prop) [Decidable b] :
    readyCount (if b then [Ev.selected chosen ok, Ev.readySent] else [Ev.selected chosen ok])
      = if b then 1 else 0 := by
  split <;> rfl

theorem offer_ok_recv (o : Offer) (h : o.ok = true) : o.dir = SelectDir.SelectRecv := by
  cases o <;> simp [Offer.ok] at h <;> rfl

theorem loopBody_readyCount (p : PerfResolveMonitorModule) (chCnt : Nat)
    (tableNames : List String) (s : LoopState) (pick : Pick) :
    readyCount (loopBody p chCnt tableNames s pick).1
      = if (selectIndex pick.offer s.cases).isSome = true
          ∧ pick.offer.dir = SelectDir.SelectSend then 1 else 0 := by
  unfold loopBody
  split
  · rename_i hsel
    simp [hsel, readyCount]
  · rename_i chosen hsel
    dsimp only
    by_cases hok : pick.offer.ok = true
    · have hrecv := offer_ok_recv _ hok
      simp only [hok, hrecv]
      repeat' split
      all_goals
        simp [readyCount_append, readyCount, readyCount_dataProcessing, hsel] at *
    · simp [hok, readyCount_sel, hsel]

theorem loopBody_send_retires (p : PerfResolveMonitorModule) (chCnt : Nat)
    (tableNames : List String) (s : LoopState) (pick : Pick) (chosen : Nat)
    (hsel : selectIndex pick.offer s.cases = some chosen)
    (hdir : pick.offer.dir = SelectDir.SelectSend) :
    (loopBody p chCnt tableNames s pick).2.1 = s.retire chosen := by
  have hok : pick.offer.ok = false := by
    cases ho : pick.offer <;> simp [ho, Offer.dir] at hdir
    rfl
  simp [loopBody, hsel, hok]

theorem loopBody_ready_balance (p : PerfResolveMonitorModule) (chCnt : Nat)
    (tableNames : List String) (s : LoopState) (pick : Pick) :
    readyCount (loopBody p chCnt tableNames s pick).1
        + armedSends (loopBody p chCnt tableNames s pick).2.1.cases
      = armedSends s.cases := by
  rw [loopBody_readyCount]
  cases hsel : selectIndex pick.offer s.cases with
  | none =>
    have hb : loopBody p chCnt tableNames s pick = ([], s, Ctl.next) := by
      simp [loopBody, hsel]
    simp [hb]
  | some chosen =>
    obtain ⟨c, hc, hcd, hchan⟩ := selectIndex_some _ _ _ hsel
    have hret := countP_retireCase
      (fun c => decide (c.Dir = SelectDir.SelectSend) && c.Chan.isSome)
      (by intro c h; simp [h]) chosen s.cases c hc
    by_cases hdir : pick.offer.dir = SelectDir.SelectSend
    · rw [loopBody_send_retires p chCnt tableNames s pick chosen hsel hdir]
      simp only [hcd, hdir, hchan, decide_True, Option.isSome_some, Bool.and_self, if_true] at hret
      simp only [Option.isSome_some, hdir, and_self, if_true, LoopState.retire, armedSends]
      omega
    · have hq : (decide (c.Dir = SelectDir.SelectSend) && c.Chan.isSome) = false := by
        simp [hcd, hdir]
      simp only [hq, Bool.false_eq_true, if_false, Nat.add_zero] at hret
      simp only [hdir, and_false, if_false, Nat.zero_add]
      rcases loopBody_state p chCnt tableNames s pick with hs | ⟨ch, hch, hs, _⟩
      · rw [hs.1]
      · rw [hsel] at hch
        simp only [Option.some.injEq] at hch
        subst hch
        rw [hs]
        simpa [armedSends] using hret

theorem loopBody_armed (p : PerfResolveMonitorModule) (chCnt : Nat)
    (tableNames : List String) (s : LoopState) (pick : Pick)
    (h : armedCases s.cases = s.remaining) :
    armedCases (loopBody p chCnt tableNames s pick).2.1.cases
      = (loopBody p chCnt tableNames s pick).2.1.remaining := by
  rcases loopBody_state p chCnt tableNames s pick with hs | ⟨chosen, hsel, hs, hr⟩
  · rw [hs.1, hs.2]; exact h
  · obtain ⟨c, hc, _, hchan⟩ := selectIndex_some _ _ _ hsel
    have hret := countP_retireCase (fun c => c.Chan.isSome) (by intro c h; simp [h])
      chosen s.cases c hc
    simp only [hchan, Option.isSome_some, if_true] at hret
    rw [hs, hr]
    simp only [armedCases] at *
    omega

theorem resolveStep_ready_balance (p : PerfResolveMonitorModule) (tableNames : List String)
    (n : Nat) (s : ResolveState) (t : Tick) :
    readyCount (resolveStep p tableNames n s t).1
        + armedSends (resolveStep p tableNames n s t).2.loop.cases
      = armedSends s.loop.cases := by
  cases t with
  | main =>
    simp only [resolveStep]
    split_ifs <;> simp [readyCount]
  | worker pick =>
    have hb := loopBody_ready_balance p p.table2Ctx.length tableNames s.loop pick
    by_cases hw : s.worker = LoopEnd.waiting
    · cases hctl : (loopBody p p.table2Ctx.length tableNames s.loop pick).2.2 <;>
        by_cases hr : (loopBody p p.table2Ctx.length tableNames s.loop pick).2.1.remaining > 0 <;>
        simpa [resolveStep, hw, hctl, hr, readyCount_append, readyCount] using hb
    · simp [resolveStep, hw, readyCount]

theorem resolveStep_inv (p : PerfResolveMonitorModule) (tableNames : List String)
    (n : Nat) (s : ResolveState) (t : Tick)
    (h1 : armedCases s.loop.cases = s.loop.remaining)
    (h2 : s.worker = LoopEnd.exited → s.loop.remaining = 0) :
    armedCases (resolveStep p tableNames n s t).2.loop.cases
        = (resolveStep p tableNames n s t).2.loop.remaining ∧
    ((resolveStep p tableNames n s t).2.worker = LoopEnd.exited →
      (resolveStep p tableNames n s t).2.loop.remaining = 0) := by
  cases t with
  | main =>
    simp only [resolveStep]
    split_ifs <;> exact ⟨h1, h2⟩
  | worker pick =>
    have hb := loopBody_armed p p.table2Ctx.length tableNames s.loop pick h1
    by_cases hw : s.worker = LoopEnd.waiting
    · cases hctl : (loopBody p p.table2Ctx.length tableNames s.loop pick).2.2 <;>
        by_cases hr : (loopBody p p.table2Ctx.length tableNames s.loop pick).2.1.remaining > 0 <;>
        simp [resolveStep, hw, hctl, hr, hb]
      omega
    · have hres : resolveStep p tableNames n s (Tick.worker pick) = ([], s) := by
        simp [resolveStep, hw]
      rw [hres]
      exact ⟨h1, h2⟩

theorem runTicks_ready (p : PerfResolveMonitorModule) (tableNames : List String) (n : Nat)
    (ticks : List Tick) (s : ResolveState)
    (h1 : armedCases s.loop.cases = s.loop.remaining)
    (h2 : s.worker = LoopEnd.exited → s.loop.remaining = 0) :
    readyCount (runTicks p tableNames n s ticks).1
        + armedSends (runTicks p tableNames n s ticks).2.loop.cases = armedSends s.loop.cases ∧
    armedCases (runTicks p tableNames n s ticks).2.loop.cases
        = (runTicks p tableNames n s ticks).2.loop.remaining ∧
    ((runTicks p tableNames n s ticks).2.worker = LoopEnd.exited →
      (runTicks p tableNames n s ticks).2.loop.remaining = 0) := by
  induction ticks generalizing s with
  | nil => simpa [runTicks, readyCount] using ⟨h1, h2⟩
  | cons t rest ih =>
    have hb := resolveStep_ready_balance p tableNames n s t
    obtain ⟨i1, i2⟩ := resolveStep_inv p tableNames n s t h1 h2
    obtain ⟨r1, r2, r3⟩ := ih (resolveStep p tableNames n s t).2 i1 i2
    simp only [runTicks, readyCount_append]
    exact ⟨by omega, r2, r3⟩

theorem armedSends_le_armedCases (cs : List SelectCase) : armedSends cs ≤ armedCases cs := by
  induction cs with
  | nil => simp [armedSends, armedCases]
  | cons c rest ih =>
    simp only [armedSends, armedCases, List.countP_cons] at *
    by_cases hc : c.Chan.isSome = true <;> by_cases hd : c.Dir = SelectDir.SelectSend <;>
      simp [hc, hd] <;> omega

theorem initialLoop_counts (p : PerfResolveMonitorModule) (iter : List (String × TableCtx))
    (hlen : iter.length = p.table2Ctx.length) :
    armedSends (initialLoop p iter).cases = 1 ∧
    armedCases (initialLoop p iter).cases = (initialLoop p iter).remaining := by
  have hs0 : List.countP (fun c => decide (c.Dir = SelectDir.SelectSend) && c.Chan.isSome)
      (iter.map fun x => tableCase x.2) = 0 := by
    rw [List.countP_eq_zero]
    intro c hc
    simp only [List.mem_map] at hc
    obtain ⟨x, _, rfl⟩ := hc
    simp [tableCase]
  have hs1 : List.countP (fun c => c.Chan.isSome) (iter.map fun x => tableCase x.2)
      = iter.length := by
    have : (iter.map fun x => tableCase x.2).length = iter.length := by simp
    rw [← this, List.countP_eq_length]
    intro c hc
    simp only [List.mem_map] at hc
    obtain ⟨x, _, rfl⟩ := hc
    simp [tableCase]
  cases hs : p.stopHandler with
  | none =>
    have hb := initialLoop_plain p iter hs hlen
    simp only [initialLoop, hb, armedSends, armedCases, List.countP_append, hs0, hs1]
    simp [readyCase, caseCount, hs, hlen]
  | some h =>
    have hb := initialLoop_stop p iter (by simp [hs]) hlen
    simp only [initialLoop, hb, armedSends, armedCases, List.countP_append, hs0, hs1]
    simp [readyCase, stopCase, caseCount, hs, hlen, List.countP_cons]

theorem readyCount_initPerMaps (initPerfMap : String → Option String) (tables : List String) :
    readyCount (initPerMaps initPerfMap tables).1 = 0 := by
  induction tables with
  | nil => rfl
  | cons t rest ih =>
    simp only [initPerMaps]
    split
    · simp [logErrorf, readyCount]
    · simpa using ih

theorem resolve_ready (p : PerfResolveMonitorModule)
    (initPerfMap : String → Option String) (iter : List (String × TableCtx))
    (ticks : List Tick) (hlen : iter.length = p.table2Ctx.length) :
    (readyCount (p.Resolve initPerfMap iter ticks).1 ≤ 1) ∧
    ∀ st, (p.Resolve initPerfMap iter ticks).2 = some st →
      readyCount (p.Resolve initPerfMap iter ticks).1 + armedSends st.loop.cases = 1 ∧
      armedCases st.loop.cases = st.loop.remaining ∧
      (st.worker = LoopEnd.exited → st.loop.remaining = 0) := by
  obtain ⟨c1, c2⟩ := initialLoop_counts p iter hlen
  have h0 := readyCount_initPerMaps initPerfMap p.tableIds
  by_cases hz : p.tableIds.length = 0
  · simp [PerfResolveMonitorModule.Resolve, hz, readyCount]
  · rcases hinit : initPerMaps initPerfMap p.tableIds with ⟨evs, _ | n⟩
    · rw [hinit] at h0
      simp only at h0
      simp [PerfResolveMonitorModule.Resolve, hz, hinit, h0]
    · rw [hinit] at h0
      simp only at h0
      obtain ⟨r1, r2, r3⟩ := runTicks_ready p (buildSelectCase (caseCount p) iter).2 n ticks
        { started := 0, stopped := 0, loop := initialLoop p iter,
          worker := LoopEnd.waiting, done := false } c2 (by simp)
      simp only at r1
      simp only [PerfResolveMonitorModule.Resolve, hz, hinit, if_false, readyCount_append, h0,
        Nat.zero_add, Option.some.injEq]
      refine ⟨by omega, ?_⟩
      intro st hst
      subst hst
      exact ⟨by omega, r2, r3⟩

/-- C9 (as amended): in every execution of Resolve the readiness signal is
sent at most once, and it has been sent exactly once in every execution in
which the worker has left its loop with every select case retired. The
readiness case is armed in the select set from the first pass of the loop
on, whether or not the perf maps have been started. -/
theorem ready_sent_at_most_once (p : PerfResolveMonitorModule)
    (initPerfMap : String → Option String) (iter : List (String × TableCtx))
    (ticks : List Tick) (hiter : iter.Perm p.table2Ctx) :
    readyCount (p.Resolve initPerfMap iter ticks).1 ≤ 1 ∧
    (∀ st, (p.Resolve initPerfMap iter ticks).2 = some st → st.worker = LoopEnd.exited →
      readyCount (p.Resolve initPerfMap iter ticks).1 = 1) ∧
    selectIndex Offer.readyTaken (initialLoop p iter).cases = some p.table2Ctx.length := by
  have hsel : selectIndex Offer.readyTaken (initialLoop p iter).cases
      = some p.table2Ctx.length := by
    have hskip : ∀ c ∈ iter.map (fun x => tableCase x.2),
        ¬ (c.Dir = Offer.readyTaken.dir ∧ c.Chan = some Offer.readyTaken.chan) := by
      intro c hc
      simp only [List.mem_map] at hc
      obtain ⟨x, _, rfl⟩ := hc
      simp [tableCase, Offer.chan]
    cases hs : p.stopHandler with
    | none =>
      simp only [initialLoop, initialLoop_plain p iter hs hiter.length_eq]
      rw [selectIndex_append_skip _ _ _ hskip]
      simp [selectIndex, readyCase, Offer.dir, Offer.chan, hiter.length_eq]
    | some h =>
      simp only [initialLoop, initialLoop_stop p iter (by simp [hs]) hiter.length_eq]
      rw [selectIndex_append_skip _ _ _ hskip]
      simp [selectIndex, readyCase, Offer.dir, Offer.chan, hiter.length_eq]
  obtain ⟨hle, hst⟩ := resolve_ready p initPerfMap iter ticks hiter.length_eq
  refine ⟨hle, ?_, hsel⟩
  intro st h hexit
  obtain ⟨r1, r2, r3⟩ := hst st h
  have hz := r3 hexit
  have := armedSends_le_armedCases st.loop.cases
  omega

/-- C9, witness: monitor M with the continuous table T. The perf map is
started, the readiness signal is taken, the channel of T is closed; the
worker leaves its loop, the perf map is stopped, and the signal was sent
exactly once. -/
theorem ready_sent_at_most_once_witness :
    demoModule.table2Ctx.Perm demoModule.table2Ctx ∧
    (readyCount (demoModule.Resolve (fun _ => none) demoModule.table2Ctx
        [Tick.main, Tick.worker readyPick, Tick.worker (delivery 1),
          Tick.worker { offer := Offer.closed 0, pre := [], post := [] },
          Tick.worker readyPick, Tick.main, Tick.main]).1 ≤ 1 ∧
      (∀ st, (demoModule.Resolve (fun _ => none) demoModule.table2Ctx
          [Tick.main, Tick.worker readyPick, Tick.worker (delivery 1),
            Tick.worker { offer := Offer.closed 0, pre := [], post := [] },
            Tick.worker readyPick, Tick.main, Tick.main]).2 = some st →
        st.worker = LoopEnd.exited →
        readyCount (demoModule.Resolve (fun _ => none) demoModule.table2Ctx
          [Tick.main, Tick.worker readyPick, Tick.worker (delivery 1),
            Tick.worker { offer := Offer.closed 0, pre := [], post := [] },
            Tick.worker readyPick, Tick.main, Tick.main]).1 = 1) ∧
      selectIndex Offer.readyTaken (initialLoop demoModule demoModule.table2Ctx).cases
        = some demoModule.table2Ctx.length) ∧
    (demoModule.Resolve (fun _ => none) demoModule.table2Ctx
        [Tick.main, Tick.worker readyPick, Tick.worker (delivery 1),
          Tick.worker { offer := Offer.closed 0, pre := [], post := [] },
          Tick.worker readyPick, Tick.main, Tick.main]).1
      = [Ev.start 0, Ev.selected 1 false, Ev.readySent, Ev.selected 0 true,
          Ev.process "T" [1], Ev.log Level.info "M@T", Ev.decode "M@T" [1],
          Ev.log Level.debug "M@T", Ev.send { Name := "M@T", Body := "x" },
          Ev.selected 0 false, Ev.closeOk, Ev.stop 0] ∧
    (demoModule.Resolve (fun _ => none) demoModule.table2Ctx
        [Tick.main, Tick.worker readyPick, Tick.worker (delivery 1),
          Tick.worker { offer := Offer.closed 0, pre := [], post := [] },
          Tick.worker readyPick, Tick.main, Tick.main]).2.map
        (fun st => (st.started, st.stopped, st.worker, st.done))
      = some (1, 1, LoopEnd.exited, true) ∧
    (demoModule.Resolve (fun _ => none) demoModule.table2Ctx
        [Tick.main, Tick.worker readyPick, Tick.worker (delivery 1),
          Tick.worker { offer := Offer.closed 0, pre := [], post := [] },
          Tick.worker readyPick, Tick.main, Tick.main]).2.map
        (fun st => (st.loop.cases, st.loop.remaining))
      = some ([{ Dir := SelectDir.SelectRecv, Chan := none },
                { Dir := SelectDir.SelectSend, Chan := none }], 0) :=
  ⟨List.Perm.refl _,
    ready_sent_at_most_once demoModule (fun _ => none) demoModule.table2Ctx
      [Tick.main, Tick.worker readyPick, Tick.worker (delivery 1),
        Tick.worker { offer := Offer.closed 0, pre := [], post := [] },
        Tick.worker readyPick, Tick.main, Tick.main] (List.Perm.refl _),
    by decide, by decide, by decide⟩

/-- C9, counterexample to the claim as stated: monitor M with the one table
T, hence one perf map. The worker goroutine runs first and its select sends
the readiness signal while no perf map has been started; Start is called on
the perf map only afterwards. -/
theorem ready_sent_before_any_start :
    demoModule.tableIds = ["T"] ∧
    (demoModule.Resolve (fun _ => none) demoModule.table2Ctx [Tick.worker readyPick]).1
      = [Ev.selected 1 false, Ev.readySent] ∧
    startCount
      (demoModule.Resolve (fun _ => none) demoModule.table2Ctx [Tick.worker readyPick]).1 = 0 ∧
    (demoModule.Resolve (fun _ => none) demoModule.table2Ctx
        [Tick.worker readyPick, Tick.main]).1
      = [Ev.selected 1 false, Ev.readySent, Ev.start 0] := by
  decide

end Modules
